/-
  A verification development for the MIR global-value-numbering pass
  (compiler/rustc_mir_transform/src/gvn.rs).

  The pass is embedded shallowly: every function of gvn.rs that the
  statements below mention is translated into a Lean definition with the
  same structure, with the pass's external collaborators (the type/layout
  queries of `TyCtxt`, the interpreter `InterpCx`, the SSA oracle and the
  dominator tree) modelled as an oracle record `Ctx` of abstract functions.
  Handles to external objects (types, constants, layouts, interpreter
  values) are natural numbers; their only structure is what the oracles
  give them.

  Naming: Rust snake_case names are kept wherever Lean allows.  The `Value`
  variant that gvn.rs calls an anonymous/unknown value is named `anon`
  here, the corresponding minting function `new_anon` (Rust `new_opaque`),
  and the counter field of the state is named `counter` (Rust: the
  `next_opaque : Option<usize>` field); those Rust names cannot be used as
  Lean identifiers in this development.
-/
import Mathlib

set_option maxHeartbeats 1000000

/-- Dense index into the value interner (Rust `VnIndex`, a newtype over usize). -/
abbrev VnIndex := Nat

/-- An IR local (Rust `Local`). -/
abbrev Local := Nat

/-- Handle to an interned type `Ty<'tcx>`. -/
abbrev TyH := Nat

/-- Handle to a MIR constant `Const<'tcx>` (also used for `ty::Const`). -/
abbrev ConstH := Nat

/-- Handle to an interpreter operand `OpTy<'tcx>` (also used for `ImmTy`). -/
abbrev OpTyH := Nat

/-- Handle to a layout `TyAndLayout`. -/
abbrev LayoutH := Nat

/-- Handle to an interpreter `Scalar`. -/
abbrev ScalarH := Nat

/-- Handle to an interpreter place `MPlaceTy`. -/
abbrev MPlaceH := Nat

/-- Handle to an interpreter `Immediate`. -/
abbrev ImmH := Nat

/-- A MIR location: basic block and statement index (Rust `Location`). -/
structure Location where
  block : Nat
  statementIndex : Nat
deriving DecidableEq, Repr

/-- Rust `Mutability`. -/
inductive Mutability where
  | not
  | mut
deriving DecidableEq, Repr

/-- The layout ABI classification the pass inspects (Rust `Abi`).  `scalar b`
records whether the scalar is `abi::Scalar::Initialized` (`b = true`); every
ABI that is neither scalar nor scalar-pair is `aggregate tag`. -/
inductive Abi where
  | scalar (initialized : Bool)
  | scalarPair
  | aggregate (tag : Nat)
deriving DecidableEq, Repr

/-- Rust `ProjectionElem<V, T>`: `PlaceElem` instantiates `V := Local`,
the interned projection instantiates `V := VnIndex`.  The symbol of a
`Downcast` is dropped (it carries no semantics); `offset` of
`ConstantIndex` (a u64) is a `Nat`. -/
inductive ProjElem (V T : Type) where
  | deref
  | field (f : Nat) (ty : T)
  | index (v : V)
  | constantIndex (offset : Nat) (minLength : Nat) (fromEnd : Bool)
  | subslice (f : Nat) (t : Nat) (fromEnd : Bool)
  | downcast (variant : Nat)
  | opaqueCast (ty : T)
  | subtype (ty : T)
deriving DecidableEq, Repr

/-- A MIR place: a local and a projection list (Rust `Place`; `PlaceRef`
is represented by the same structure).  The Rust field name `local` is a
Lean keyword, so the field is `localIdx`. -/
structure Place where
  localIdx : Local
  projection : List (ProjElem Local TyH)
deriving DecidableEq, Repr

/-- `Place::is_indirect`: some projection is a deref. -/
def Place.is_indirect (p : Place) : Bool :=
  p.projection.any fun e => match e with | .deref => true | _ => false

/-- `Place::is_indirect_first_projection`: the first projection is a deref. -/
def Place.is_indirect_first_projection (p : Place) : Bool :=
  match p.projection.head? with
  | some .deref => true
  | _ => false

/-- `Place::as_local`: a place that is exactly a local. -/
def Place.as_local (p : Place) : Option Local :=
  match p.projection with
  | [] => some p.localIdx
  | _ => none

/-- A constant operand (Rust `ConstOperand`).  The pass always writes
`DUMMY_SP` spans and `None` user types, so only the constant is kept. -/
structure ConstOperand where
  const_ : ConstH
deriving DecidableEq, Repr

/-- Rust `Operand`. -/
inductive Operand where
  | copy (place : Place)
  | move (place : Place)
  | constant (c : ConstOperand)
deriving DecidableEq, Repr

/-- The pointer coercions `simplify_rvalue` distinguishes
(Rust `PointerCoercion`). -/
inductive PointerCoercion where
  | reifyFnPointer
  | closureFnPointer
  | otherCoercion (tag : Nat)
deriving DecidableEq, Repr

/-- Rust `CastKind`, with the kinds the pass treats specially made explicit. -/
inductive CastKind where
  | intToInt
  | intToFloat
  | floatToFloat
  | floatToInt
  | transmute
  | pointerCoercion (pc : PointerCoercion)
  | otherCast (tag : Nat)
deriving DecidableEq, Repr

/-- Rust `NullOp`.  The field list of `OffsetOf` is an external handle. -/
inductive NullOp where
  | sizeOf
  | alignOf
  | offsetOf (fields : Nat)
deriving DecidableEq, Repr

/-- Rust `AggregateKind`.  `DefId` and `GenericArgsRef` are handles; the
user-type annotation of `Adt` is a handle; `activeField` is the union
field index. -/
inductive AggregateKind where
  | array (elemTy : TyH)
  | tuple
  | closure (did : Nat) (args : Nat)
  | coroutine (did : Nat) (args : Nat) (extra : Nat)
  | adt (did : Nat) (variantIndex : Nat) (args : Nat) (userTy : Nat) (activeField : Option Nat)
deriving DecidableEq, Repr

/-- Rust `Rvalue`, restricted to the constructors gvn.rs dispatches on.
`BinOp`/`UnOp` and the region of `Ref` and the borrow kind are handles. -/
inductive Rvalue where
  | use (op : Operand)
  | repeat (op : Operand) (count : ConstH)
  | ref (region : Nat) (borrowKind : Nat) (place : Place)
  | addressOf (mutbl : Mutability) (place : Place)
  | len (place : Place)
  | cast (kind : CastKind) (op : Operand) (toTy : TyH)
  | binaryOp (op : Nat) (lhs rhs : Operand)
  | checkedBinaryOp (op : Nat) (lhs rhs : Operand)
  | nullaryOp (op : NullOp) (ty : TyH)
  | unaryOp (op : Nat) (arg : Operand)
  | discriminant (place : Place)
  | aggregate (kind : AggregateKind) (fields : List Operand)
  | threadLocalRef (did : Nat)
  | shallowInitBox (op : Operand) (ty : TyH)
  | copyForDeref (place : Place)
deriving DecidableEq, Repr

/-- A MIR statement, restricted to the kinds the pass inspects; every other
kind is `otherStmt`. -/
inductive Statement where
  | assign (place : Place) (rvalue : Rvalue)
  | storageLive (l : Local)
  | storageDead (l : Local)
  | nop
  | otherStmt (tag : Nat)
deriving DecidableEq, Repr

/-- Rust `AggregateTy` of gvn.rs: the minimal information kept to
reconstruct an aggregate value's type. -/
inductive AggregateTyV where
  /-- Invariant (from gvn.rs): never used for an empty array. -/
  | array
  | tuple
  | def_ (did : Nat) (args : Nat)
deriving DecidableEq, Repr

/-- Rust `AddressKind` of gvn.rs. -/
inductive AddressKind where
  | ref (borrowKind : Nat)
  | address (mutbl : Mutability)
deriving DecidableEq, Repr

/-- The symbolic value algebra (Rust `enum Value<'tcx>` of gvn.rs).
`anon` is the variant gvn.rs uses for values it knows nothing about
(its Rust name cannot be a Lean identifier here); the `Nat` is the
counter value it was minted with. -/
inductive Value where
  | anon (tag : Nat)
  | constant (value : ConstH) (disambiguator : Nat)
  | aggregate (ty : AggregateTyV) (variantIndex : Nat) (fields : List VnIndex)
  | repeat (elem : VnIndex) (count : ConstH)
  | address (place : Place) (kind : AddressKind) (provenance : Nat)
  | projection (base : VnIndex) (elem : ProjElem VnIndex TyH)
  | discriminant (base : VnIndex)
  | len (slice : VnIndex)
  | nullaryOp (op : NullOp) (ty : TyH)
  | unaryOp (op : Nat) (arg : VnIndex)
  | binaryOp (op : Nat) (lhs rhs : VnIndex)
  | checkedBinaryOp (op : Nat) (lhs rhs : VnIndex)
  | cast (kind : CastKind) (value : VnIndex) (fromTy : TyH) (toTy : TyH)
deriving DecidableEq, Repr

/-- The `ConstValue` constructors `op_to_prop_const` produces. -/
inductive ConstValue where
  | zeroSized
  | scalar (s : ScalarH)
  | indirect (allocId : Nat) (offset : Nat)
deriving DecidableEq, Repr

/-- The pass's external collaborators, as one oracle record: the SSA
oracle's dominance predicate, `TyCtxt` type/layout queries, and the
`InterpCx<DummyMachine>` operations `eval_to_const`, `op_to_prop_const`
and `try_as_constant` invoke.  The interpreter is stateful in Rust; its
calls are modelled as pure oracles, which is sound for the statements
below (none depends on the interpreter's memory evolving). -/
structure Ctx where
  /-- `SsaLocals::assignment_dominates(dominators, local, loc)`: whether the
  unique assignment of the SSA local strictly dominates `loc`. -/
  assignmentDominates : Local → Location → Bool
  /-- `tcx.features().unsized_locals`. -/
  featureUnsizedLocals : Bool
  /-- `Ty::is_sized`. -/
  isSized : TyH → Bool
  /-- `Ty::is_freeze`. -/
  isFreeze : TyH → Bool
  /-- `Ty::ref_mutability`: `some m` iff the type is a reference `&`/`&mut`. -/
  refMutability : TyH → Option Mutability
  /-- `Ty::builtin_deref(true)`, projected to the pointee type. -/
  builtinDeref : TyH → Option TyH
  /-- `PlaceRef::ty(local_decls, tcx).ty`. -/
  placeTy : Place → TyH
  /-- `Operand::ty(local_decls, tcx)`. -/
  operandTy : Operand → TyH
  /-- `Rvalue::ty(local_decls, tcx)`. -/
  rvalueTy : Rvalue → TyH
  /-- `Const::normalize(tcx, param_env)`. -/
  normalize : ConstH → ConstH
  /-- `Const::is_deterministic`. -/
  isDeterministic : ConstH → Bool
  /-- `Const::zero_sized(ty)`. -/
  zeroSized : TyH → ConstH
  /-- `Const::from_scalar(tcx, scalar, ty)`. -/
  fromScalar : ScalarH → TyH → ConstH
  /-- `ty::Const::from_target_usize`. -/
  constFromUsize : Nat → ConstH
  /-- `tcx.def_kind(did) == DefKind::Enum`. -/
  defKindIsEnum : Nat → Bool
  /-- `tcx.type_of(def_id).instantiate(tcx, args)`. -/
  typeOfInstantiate : Nat → Nat → TyH
  /-- `Ty::new_array(tcx, elem, n)`. -/
  tyNewArray : TyH → Nat → TyH
  /-- `Ty::new_tup_from_iter`. -/
  tyNewTup : List TyH → TyH
  /-- `Ty::is_enum`. -/
  tyIsEnum : TyH → Bool
  /-- `Ty::new_ref(tcx, re_erased, TypeAndMut)`. -/
  tyNewRef : TyH → Mutability → TyH
  /-- `Ty::new_ptr(tcx, TypeAndMut)`. -/
  tyNewPtr : TyH → Mutability → TyH
  /-- `BorrowKind::to_mutbl_lossy`. -/
  bkToMutbl : Nat → Mutability
  /-- `tcx.types.usize`. -/
  usizeTy : TyH
  /-- `tcx.types.bool`. -/
  boolTy : TyH
  /-- Whether a type is a zero-sized type.  Used only by the spec-side
  predicate of the empty-aggregate rule, not by the pass itself. -/
  tyIsZst : TyH → Bool
  /-- `ecx.eval_mir_constant(c, None, None).ok()`. -/
  evalMirConstant : ConstH → Option OpTyH
  /-- `ecx.layout_of(ty).ok()`. -/
  layoutOf : TyH → Option LayoutH
  /-- `ecx.layout_of(tcx.types.usize).unwrap()`. -/
  usizeLayout : LayoutH
  /-- `OpTy::layout` (also for `ImmTy`). -/
  opLayout : OpTyH → LayoutH
  /-- `TyAndLayout::ty`. -/
  layoutTy : LayoutH → TyH
  /-- `TyAndLayout::abi`. -/
  layoutAbi : LayoutH → Abi
  /-- `TyAndLayout::is_zst()`. -/
  layoutIsZst : LayoutH → Bool
  /-- `TyAndLayout::is_unsized()`. -/
  layoutIsUnsized : LayoutH → Bool
  /-- `layout.size.bytes()`. -/
  layoutSizeBytes : LayoutH → Nat
  /-- `layout.align.abi.bytes()`. -/
  layoutAlignBytes : LayoutH → Nat
  /-- `layout.offset_of_subfield(ecx, fields).bytes()`. -/
  layoutOffsetOfSubfield : LayoutH → Nat → Nat
  /-- `ImmTy::uninit(layout).into()`. -/
  uninitImm : LayoutH → OpTyH
  /-- `ecx.allocate(layout, MemoryKind::Stack).ok()`. -/
  allocate : LayoutH → Option MPlaceH
  /-- `ecx.project_downcast(place, variant).ok()`. -/
  projectDowncastM : MPlaceH → Nat → Option MPlaceH
  /-- `ecx.project_field(place, field).ok()`. -/
  projectFieldM : MPlaceH → Nat → Option MPlaceH
  /-- `ecx.copy_op(op, dest, false).ok()`: whether the copy succeeds. -/
  copyOp : OpTyH → MPlaceH → Bool
  /-- `ecx.write_discriminant(variant, dest).ok()`: whether it succeeds. -/
  writeDiscriminant : Nat → MPlaceH → Bool
  /-- `dest.ptr().provenance.unwrap()` (an `AllocId`). -/
  mplaceProvenance : MPlaceH → Nat
  /-- `ecx.alloc_mark_immutable(alloc_id).ok()`: whether it succeeds. -/
  allocMarkImmutable : Nat → Bool
  /-- `MPlaceTy → OpTy` (`.into()`). -/
  mplaceToOp : MPlaceH → OpTyH
  /-- `ecx.project(op, elem).ok()` on an operand. -/
  ecxProjectOp : OpTyH → ProjElem VnIndex TyH → Option OpTyH
  /-- `ecx.deref_pointer(op).ok()`. -/
  derefPointer : OpTyH → Option MPlaceH
  /-- `ecx.project(mplace, elem).ok()` on an interpreter place. -/
  ecxProjectM : MPlaceH → ProjElem Local TyH → Option MPlaceH
  /-- `mplace.to_ref(ecx)`. -/
  mplaceToRefImm : MPlaceH → ImmH
  /-- `mplace.layout.ty`. -/
  mplaceLayoutTy : MPlaceH → TyH
  /-- `ImmTy::from_immediate(imm, layout).into()`. -/
  immFromImmediate : ImmH → LayoutH → OpTyH
  /-- `ecx.read_discriminant(op).ok()` (a `VariantIdx`). -/
  readDiscriminant : OpTyH → Option Nat
  /-- `ecx.discriminant_for_variant(ty, variant).ok()` as an operand
  (used by `eval_to_const`). -/
  discrForVariantOp : TyH → Nat → Option OpTyH
  /-- `ecx.discriminant_for_variant(ty, variant).ok()` as
  `(value.to_scalar(), value.layout.ty)` (used by `simplify_discriminant`). -/
  discrForVariantScalar : TyH → Nat → Option (ScalarH × TyH)
  /-- `op.len(ecx).ok()`. -/
  opLen : OpTyH → Option Nat
  /-- `ImmTy::try_from_uint(v, layout)`. -/
  tryFromUint : Nat → LayoutH → Option OpTyH
  /-- `ecx.read_immediate(op).ok()`. -/
  readImmediate : OpTyH → Option OpTyH
  /-- `ecx.overflowing_unary_op(op, arg).ok()`, the value component. -/
  overflowingUnaryOp : Nat → OpTyH → Option OpTyH
  /-- `ecx.overflowing_binary_op(op, l, r).ok()`: value and overflow flag. -/
  overflowingBinaryOp : Nat → OpTyH → OpTyH → Option (OpTyH × Bool)
  /-- `ImmTy::to_scalar`. -/
  toScalar : OpTyH → ScalarH
  /-- `ImmTy::from_scalar_pair(s, Scalar::from_bool(b), layout).into()`. -/
  fromScalarPair : ScalarH → Bool → LayoutH → OpTyH
  /-- `ecx.int_to_int_or_float(v, layout).ok()`. -/
  intToIntOrFloat : OpTyH → LayoutH → Option OpTyH
  /-- `ecx.float_to_float_or_int(v, layout).ok()`. -/
  floatToFloatOrInt : OpTyH → LayoutH → Option OpTyH
  /-- `op.as_mplace_or_imm().is_right()`: `true` iff the operand is an
  immediate rather than a memory place. -/
  asMplaceOrImmIsRight : OpTyH → Bool
  /-- `op.offset(Size::ZERO, layout, ecx).ok()`. -/
  offsetZero : OpTyH → LayoutH → Option OpTyH
  /-- `ecx.read_target_usize(op).ok()`. -/
  readTargetUsize : OpTyH → Option Nat
  /-- `ecx.read_scalar(op).ok()`. -/
  readScalar : OpTyH → Option ScalarH
  /-- `scalar.try_to_int().is_ok()`. -/
  scalarIsInt : ScalarH → Bool
  /-- `op.as_mplace_or_imm()`, the `Left` (memory place) component. -/
  asMplaceLeft : OpTyH → Option MPlaceH
  /-- `ecx.size_and_align_of_mplace(m).ok()` (itself an `Option` pair). -/
  sizeAndAlignOfMplace : MPlaceH → Option (Option (Nat × Nat))
  /-- `mplace.ptr()` as a handle. -/
  mplacePtr : MPlaceH → Nat
  /-- `ecx.get_ptr_alloc(ptr, size).ok()` (itself an `Option` alloc handle). -/
  getPtrAlloc : Nat → Nat → Option (Option Nat)
  /-- `alloc_ref.has_provenance()`. -/
  allocHasProvenance : Nat → Bool
  /-- `ptr.into_pointer_or_addr().ok()`. -/
  intoPointerOrAddr : Nat → Option Nat
  /-- `pointer.into_parts()`: `(alloc_id, offset)`. -/
  ptrIntoParts : Nat → Nat × Nat
  /-- `intern_const_alloc_for_constprop(ecx, alloc_id).ok()`: success. -/
  internConstAlloc : Nat → Bool
  /-- `matches!(tcx.global_alloc(alloc_id), GlobalAlloc::Memory(_))`. -/
  globalAllocIsMemory : Nat → Bool
  /-- `ecx.intern_with_temp_alloc(layout, |…| copy_op …).ok()`. -/
  internWithTempAlloc : LayoutH → OpTyH → Option Nat
  /-- `tcx.global_alloc(id).unwrap_memory().inner().provenance().ptrs().is_empty()`. -/
  allocProvenanceEmpty : Nat → Bool
  /-- `Const::Val(value, ty)`. -/
  mkConstVal : ConstValue → TyH → ConstH

/-- The mutable state of the pass (Rust `struct VnState`).  `revLocals`
models the `FxHashMap<VnIndex, Vec<Local>>` as an association list;
`values` models the `FxIndexSet<Value>` as the list of values in insertion
order; `counter` is the Rust field `next_opaque : Option<usize>`;
`reusedLocals` models the `BitSet<Local>`. -/
structure VnState where
  localDecls : List TyH
  locals : List (Option VnIndex)
  revLocals : List (VnIndex × List Local)
  values : List Value
  evaluated : List (Option OpTyH)
  counter : Option Nat
  reusedLocals : List Local
deriving Repr

/-- A function body: local declarations (their types) and basic blocks as
statement lists.  Terminators are not modelled; the statements below do
not concern them. -/
structure Body where
  localDecls : List TyH
  blocks : List (List Statement)
deriving DecidableEq, Repr

/-- One entry of the SSA oracle's `for_each_assignment_mut` iteration:
either an assignment the oracle reports without an rvalue (`Arg` or
`Terminator`) or an rvalue assignment at a body location. -/
inductive SsaAssign where
  | noValue (l : Local)
  | rvalueAt (l : Local) (loc : Location)
deriving DecidableEq, Repr

/-- `VnState::get`: the value interned at an index.  The Rust code unwraps
(the index is always in range); out-of-range reads default to `anon 0`. -/
def get_value (st : VnState) (index : VnIndex) : Value :=
  st.values.getD index (.anon 0)

/-- Lookup in the association list modelling `rev_locals`. -/
def lookup_rev (rev : List (VnIndex × List Local)) (v : VnIndex) : Option (List Local) :=
  match rev with
  | [] => none
  | (k, ls) :: rest => if k = v then some ls else lookup_rev rest v

/-- `rev_locals.entry(value).or_default().push(local)`. -/
def rev_push (rev : List (VnIndex × List Local)) (v : VnIndex) (l : Local) :
    List (VnIndex × List Local) :=
  match rev with
  | [] => [(v, [l])]
  | (k, ls) :: rest => if k = v then (k, ls ++ [l]) :: rest else (k, ls) :: rev_push rest v l

/-- The field-writing loop of `eval_to_const`'s `Aggregate` arm:
`project_field` then `copy_op` for each evaluated field, in order. -/
def eval_agg_fields (ctx : Ctx) (variantDest : MPlaceH) : Nat → List OpTyH → Bool
  | _, [] => true
  | i, op :: rest =>
    match ctx.projectFieldM variantDest i with
    | none => false
    | some fieldDest => ctx.copyOp op fieldDest && eval_agg_fields ctx variantDest (i + 1) rest

/-- The projection walk of `eval_to_const`'s `Address` arm over
`place.projection.iter().skip(1)`: `Index` is refused, every other element
is applied by the interpreter. -/
def address_project_rest (ctx : Ctx) : MPlaceH → List (ProjElem Local TyH) → Option MPlaceH
  | m, [] => some m
  | m, p :: rest =>
    match p with
    | .index _ => none
    | _ =>
      match ctx.ecxProjectM m p with
      | none => none
      | some m2 => address_project_rest ctx m2 rest

/-- `VnState::eval_to_const`: opportunistically fold an interned value to a
concrete interpreter operand.  Sub-values are read from the memoized
`evaluated` table, exactly as in the source (the function is not
recursive). -/
def eval_to_const (ctx : Ctx) (st : VnState) (value : VnIndex) : Option OpTyH :=
  match get_value st value with
  | .anon _ => none
  | .repeat _ _ => none
  | .constant c _ => ctx.evalMirConstant c
  | .aggregate kind variantIndex fields =>
    match fields.mapM (fun f => st.evaluated.getD f none) with
    | none => none
    | some evFields =>
      let ty? : Option TyH := match kind with
        | .array =>
          match evFields with
          | [] => none   -- `assert!(fields.len() > 0)` in the source; unreachable
          | f0 :: _ => some (ctx.tyNewArray (ctx.layoutTy (ctx.opLayout f0)) evFields.length)
        | .tuple => some (ctx.tyNewTup (evFields.map fun f => ctx.layoutTy (ctx.opLayout f)))
        | .def_ did args => some (ctx.typeOfInstantiate did args)
      match ty? with
      | none => none
      | some ty =>
        let variant? : Option Nat := if ctx.tyIsEnum ty then some variantIndex else none
        match ctx.layoutOf ty with
        | none => none
        | some tyL =>
          if ctx.layoutIsZst tyL then some (ctx.uninitImm tyL)
          else if (match ctx.layoutAbi tyL with
                   | .scalar _ => true | .scalarPair => true | _ => false) then
            match ctx.allocate tyL with
            | none => none
            | some dest =>
              match (match variant? with
                     | some v => ctx.projectDowncastM dest v
                     | none => some dest) with
              | none => none
              | some variantDest =>
                if eval_agg_fields ctx variantDest 0 evFields then
                  if ctx.writeDiscriminant (variant?.getD 0) dest then
                    if ctx.allocMarkImmutable (ctx.mplaceProvenance dest) then
                      some (ctx.mplaceToOp dest)
                    else none
                  else none
                else none
          else none
  | .projection base elem =>
    match st.evaluated.getD base none with
    | none => none
    | some op =>
      match elem with
      | .index _ => none   -- should have been replaced by a `ConstantIndex` earlier
      | e => ctx.ecxProjectOp op e
  | .address place kind _ =>
    if place.is_indirect_first_projection then
      match st.locals.getD place.localIdx none with
      | none => none
      | some l =>
        match st.evaluated.getD l none with
        | none => none
        | some pointer =>
          match ctx.derefPointer pointer with
          | none => none
          | some mp =>
            match address_project_rest ctx mp (place.projection.drop 1) with
            | none => none
            | some mplace =>
              let ptrImm := ctx.mplaceToRefImm mplace
              let ty := match kind with
                | .ref bk => ctx.tyNewRef (ctx.mplaceLayoutTy mplace) (ctx.bkToMutbl bk)
                | .address mutbl => ctx.tyNewPtr (ctx.mplaceLayoutTy mplace) mutbl
              match ctx.layoutOf ty with
              | none => none
              | some layout => some (ctx.immFromImmediate ptrImm layout)
    else none
  | .discriminant base =>
    match st.evaluated.getD base none with
    | none => none
    | some op =>
      match ctx.readDiscriminant op with
      | none => none
      | some variant => ctx.discrForVariantOp (ctx.layoutTy (ctx.opLayout op)) variant
  | .len slice =>
    match st.evaluated.getD slice none with
    | none => none
    | some op =>
      match ctx.opLen op with
      | none => none
      | some n => ctx.tryFromUint n ctx.usizeLayout
  | .nullaryOp op ty =>
    match ctx.layoutOf ty with
    | none => none
    | some layout =>
      if (match op with
          | .sizeOf | .alignOf => ctx.layoutIsUnsized layout
          | .offsetOf _ => false) then none
      else
        let val := match op with
          | .sizeOf => ctx.layoutSizeBytes layout
          | .alignOf => ctx.layoutAlignBytes layout
          | .offsetOf fields => ctx.layoutOffsetOfSubfield layout fields
        ctx.tryFromUint val ctx.usizeLayout
  | .unaryOp op arg =>
    (st.evaluated.getD arg none).bind fun a =>
    (ctx.readImmediate a).bind fun ai =>
    ctx.overflowingUnaryOp op ai
  | .binaryOp op lhs rhs =>
    (st.evaluated.getD lhs none).bind fun l =>
    (ctx.readImmediate l).bind fun li =>
    (st.evaluated.getD rhs none).bind fun r =>
    (ctx.readImmediate r).bind fun ri =>
    (ctx.overflowingBinaryOp op li ri).map fun vr => vr.1
  | .checkedBinaryOp op lhs rhs =>
    (st.evaluated.getD lhs none).bind fun l =>
    (ctx.readImmediate l).bind fun li =>
    (st.evaluated.getD rhs none).bind fun r =>
    (ctx.readImmediate r).bind fun ri =>
    (ctx.overflowingBinaryOp op li ri).bind fun vr =>
    let tupleTy := ctx.tyNewTup [ctx.layoutTy (ctx.opLayout vr.1), ctx.boolTy]
    (ctx.layoutOf tupleTy).map fun tl =>
    ctx.fromScalarPair (ctx.toScalar vr.1) vr.2 tl
  | .cast kind value _fromTy toTy =>
    match kind with
    | .intToInt | .intToFloat =>
      (st.evaluated.getD value none).bind fun v =>
      (ctx.readImmediate v).bind fun vi =>
      (ctx.layoutOf toTy).bind fun tl =>
      ctx.intToIntOrFloat vi tl
    | .floatToFloat | .floatToInt =>
      (st.evaluated.getD value none).bind fun v =>
      (ctx.readImmediate v).bind fun vi =>
      (ctx.layoutOf toTy).bind fun tl =>
      ctx.floatToFloatOrInt vi tl
    | .transmute =>
      match st.evaluated.getD value none with
      | none => none
      | some v =>
        match ctx.layoutOf toTy with
        | none => none
        | some tl =>
          -- `offset` for immediates only supports scalar/scalar-pair ABIs,
          -- so the source bails out for immediates whose ABIs do not match;
          -- for memory places no ABI check is made.
          if ctx.asMplaceOrImmIsRight v then
            match ctx.layoutAbi (ctx.opLayout v), ctx.layoutAbi tl with
            | .scalar _, .scalar _ => ctx.offsetZero v tl
            | .scalarPair, .scalarPair => ctx.offsetZero v tl
            | _, _ => none
          else ctx.offsetZero v tl
    | _ => none

/-- The index of the first occurrence of a value in the interner list
(the lookup half of `FxIndexSet::insert_full`). -/
def find_index : List Value → Value → Option Nat
  | [], _ => none
  | a :: rest, v => if a = v then some 0 else (find_index rest v).map (· + 1)

/-- `VnState::insert`: hash-consing.  Returns the index of an equal value if
present; otherwise appends the value, eagerly evaluates it, and appends the
evaluation to the parallel `evaluated` table. -/
def VnState.insert (ctx : Ctx) (st : VnState) (v : Value) : VnState × VnIndex :=
  match find_index st.values v with
  | some i => (st, i)
  | none =>
    let st1 : VnState := { st with values := st.values ++ [v] }
    let index := st.values.length
    let ev := eval_to_const ctx st1 index
    ({ st1 with evaluated := st1.evaluated ++ [ev] }, index)

/-- `VnState::new_opaque` (renamed: see the header comment): mint a value
distinct from all others, or `none` when minting is disabled. -/
def new_anon (ctx : Ctx) (st : VnState) : VnState × Option VnIndex :=
  match st.counter with
  | none => (st, none)
  | some n =>
    let st := { st with counter := some (n + 1) }
    let (st, i) := VnState.insert ctx st (.anon n)
    (st, some i)

/-- `VnState::new_pointer`: mint an `Address` value with a fresh provenance
counter, or `none` when minting is disabled. -/
def new_pointer (ctx : Ctx) (st : VnState) (place : Place) (kind : AddressKind) :
    VnState × Option VnIndex :=
  match st.counter with
  | none => (st, none)
  | some n =>
    let st := { st with counter := some (n + 1) }
    let (st, i) := VnState.insert ctx st (.address place kind n)
    (st, some i)

/-- `VnState::assign`: record `locals[local] = value`, and register the
local in `rev_locals` under the sizedness condition of the source
(`!tcx.features().unsized_locals || ty.is_sized(…)`). -/
def assign (ctx : Ctx) (st : VnState) (l : Local) (value : VnIndex) : VnState :=
  let st := { st with locals := st.locals.set l (some value) }
  let is_sized := !ctx.featureUnsizedLocals || ctx.isSized (st.localDecls.getD l 0)
  if is_sized then { st with revLocals := rev_push st.revLocals value l } else st

/-- `VnState::insert_constant`: disambiguator 0 for a deterministic
constant, a fresh counter value otherwise; `none` when the constant is
non-deterministic and minting is disabled. -/
def insert_constant (ctx : Ctx) (st : VnState) (value : ConstH) : VnState × Option VnIndex :=
  if ctx.isDeterministic value then
    let (st, i) := VnState.insert ctx st (.constant value 0)
    (st, some i)
  else
    match st.counter with
    | none => (st, none)
    | some n =>
      let st := { st with counter := some (n + 1) }
      let (st, i) := VnState.insert ctx st (.constant value n)
      (st, some i)

/-- `VnState::insert_scalar`.  The source `.expect`s; the `none` case is
unreachable because scalar constants are deterministic. -/
def insert_scalar (ctx : Ctx) (st : VnState) (s : ScalarH) (ty : TyH) : VnState × VnIndex :=
  match insert_constant ctx st (ctx.fromScalar s ty) with
  | (st, some i) => (st, i)
  | (st, none) => (st, 0)

/-- `VnState::try_as_local` as a function of the `rev_locals` table: the
first local holding the value whose assignment strictly dominates `loc`. -/
def try_as_local_rev (ctx : Ctx) (rev : List (VnIndex × List Local)) (index : VnIndex)
    (loc : Location) : Option Local :=
  match lookup_rev rev index with
  | none => none
  | some others => others.find? fun other => ctx.assignmentDominates other loc

/-- `VnState::try_as_local`. -/
def try_as_local (ctx : Ctx) (st : VnState) (index : VnIndex) (loc : Location) : Option Local :=
  try_as_local_rev ctx st.revLocals index loc

/-- The fall-through tail of `op_to_prop_const`: copy the value into a new
temporary allocation, intern it, and accept it only if it contains no
pointer provenance. -/
def op_to_prop_const_temp (ctx : Ctx) (op : OpTyH) : Option ConstValue :=
  match ctx.internWithTempAlloc (ctx.opLayout op) op with
  | none => none
  | some allocId =>
    if ctx.allocProvenanceEmpty allocId then some (.indirect allocId 0) else none

/-- `op_to_prop_const`: convert an evaluated operand to a `ConstValue`
suitable for writing back into MIR. -/
def op_to_prop_const (ctx : Ctx) (op : OpTyH) : Option ConstValue :=
  if ctx.layoutIsUnsized (ctx.opLayout op) then none
  else if ctx.layoutIsZst (ctx.opLayout op) then some .zeroSized
  else if !(match ctx.layoutAbi (ctx.opLayout op) with
            | .scalar _ => true | .scalarPair => true | .aggregate _ => false) then none
  else
    let scalarCase : Option ConstValue :=
      match ctx.layoutAbi (ctx.opLayout op) with
      | .scalar true =>
        match ctx.readScalar op with
        | some s => if ctx.scalarIsInt s then some (.scalar s) else none
        | none => none
      | _ => none
    match scalarCase with
    | some v => some v
    | none =>
      match ctx.asMplaceLeft op with
      | some mplace =>
        -- the `??`/`?` operators of this branch leave the function with `None`
        match ctx.sizeAndAlignOfMplace mplace with
        | none => none
        | some none => none
        | some (some (size, _align)) =>
          match ctx.getPtrAlloc (ctx.mplacePtr mplace) size with
          | none => none
          | some none => none
          | some (some allocRef) =>
            if ctx.allocHasProvenance allocRef then none
            else
              match ctx.intoPointerOrAddr (ctx.mplacePtr mplace) with
              | none => none
              | some pointer =>
                let (allocId, offset) := ctx.ptrIntoParts pointer
                if !ctx.internConstAlloc allocId then none
                else if ctx.globalAllocIsMemory allocId then
                  some (.indirect allocId offset)
                else
                  -- `alloc_id` points to a static: fall through to copying
                  op_to_prop_const_temp ctx op
      | none => op_to_prop_const_temp ctx op

/-- `VnState::try_as_constant`: a deterministic `Value::Constant` is reused
directly; otherwise the evaluated form is materialized through
`op_to_prop_const`.  (The source's provenance `assert!` after the
conversion is an internal invariant and is not modelled.) -/
def try_as_constant (ctx : Ctx) (st : VnState) (index : VnIndex) : Option ConstOperand :=
  let direct : Option ConstOperand :=
    match get_value st index with
    | .constant value _ =>
      if ctx.isDeterministic value then some { const_ := value } else none
    | _ => none
  match direct with
  | some c => some c
  | none =>
    match st.evaluated.getD index none with
    | none => none
    | some op =>
      if ctx.layoutIsUnsized (ctx.opLayout op) then none
      else
        match op_to_prop_const ctx op with
        | none => none
        | some value => some { const_ := ctx.mkConstVal value (ctx.layoutTy (ctx.opLayout op)) }

/-- The wrapping usize subtraction `a - b` (release semantics of the
unguarded subtraction in `project`'s `ConstantIndex` arm). -/
def usize_wrapping_sub (a b : Nat) : Nat :=
  (a + (2 ^ 64 - b % 2 ^ 64)) % 2 ^ 64

/-- Whether the unguarded subtraction `operands.len() - offset` in
`project`'s from-end `ConstantIndex` arm underflows (the debug-mode panic
condition). -/
def constant_index_from_end_underflows (operands : List VnIndex) (offset : Nat) : Bool :=
  decide (operands.length < offset)

/-- `VnState::project`: apply one projection element to a value, with the
algebraic simplifications of the source (field-of-aggregate,
downcast-then-field on the written variant, index-of-repeat,
constant-index-of-array), interning a `Projection` value otherwise. -/
def project (ctx : Ctx) (st : VnState) (place : Place) (value : VnIndex)
    (proj : ProjElem Local TyH) : VnState × Option VnIndex :=
  match proj with
  | .deref =>
    let ty := ctx.placeTy place
    if ctx.refMutability ty = some .not then
      match ctx.builtinDeref ty with
      | some pointeeTy =>
        if ctx.isFreeze pointeeTy then
          -- an immutable borrow always points to the same value for the
          -- lifetime of the borrow, so all instances of the deref merge
          let (st, i) := VnState.insert ctx st (.projection value .deref)
          (st, some i)
        else (st, none)
      | none => (st, none)
    else (st, none)
  | .downcast variant =>
    let (st, i) := VnState.insert ctx st (.projection value (.downcast variant))
    (st, some i)
  | .field f ty =>
    match get_value st value with
    | .aggregate _ _ fields =>
      -- the source indexes `fields[f]` directly (in range by typing)
      (st, some (fields.getD f 0))
    | .projection outerValue (.downcast readVariant) =>
      match get_value st outerValue with
      | .aggregate _ writtenVariant fields =>
        if writtenVariant = readVariant then (st, some (fields.getD f 0))
        else
          let (st, i) := VnState.insert ctx st (.projection value (.field f ty))
          (st, some i)
      | _ =>
        let (st, i) := VnState.insert ctx st (.projection value (.field f ty))
        (st, some i)
    | _ =>
      let (st, i) := VnState.insert ctx st (.projection value (.field f ty))
      (st, some i)
  | .index idx =>
    match get_value st value with
    | .repeat inner _ => (st, some inner)
    | _ =>
      match st.locals.getD idx none with
      | none => (st, none)
      | some idxVn =>
        let (st, i) := VnState.insert ctx st (.projection value (.index idxVn))
        (st, some i)
  | .constantIndex offset minLength fromEnd =>
    match get_value st value with
    | .repeat inner _ => (st, some inner)
    | .aggregate .array _ operands =>
      let offset2 := if fromEnd then usize_wrapping_sub operands.length offset else offset
      (st, operands.get? offset2)
    | _ =>
      let (st, i) := VnState.insert ctx st (.projection value (.constantIndex offset minLength fromEnd))
      (st, some i)
  | .subslice f t fromEnd =>
    let (st, i) := VnState.insert ctx st (.projection value (.subslice f t fromEnd))
    (st, some i)
  | .opaqueCast ty =>
    let (st, i) := VnState.insert ctx st (.projection value (.opaqueCast ty))
    (st, some i)
  | .subtype ty =>
    let (st, i) := VnState.insert ctx st (.projection value (.subtype ty))
    (st, some i)

/-- One element of `simplify_place_projection`'s loop: an `Index` whose
local has a known constant value becomes a `ConstantIndex`; otherwise the
index local may be replaced by a dominating SSA local. -/
def spp_elem (ctx : Ctx) (st : VnState) (loc : Location) (e : ProjElem Local TyH) :
    VnState × ProjElem Local TyH :=
  match e with
  | .index idx =>
    match st.locals.getD idx none with
    | none => (st, e)
    | some idxVn =>
      let offset? := match st.evaluated.getD idxVn none with
        | some op => ctx.readTargetUsize op
        | none => none
      match offset? with
      | some offset => (st, .constantIndex offset (offset + 1) false)
      | none =>
        match try_as_local ctx st idxVn loc with
        | some newIdx =>
          ({ st with reusedLocals := st.reusedLocals.insert newIdx }, .index newIdx)
        | none => (st, e)
  | e => (st, e)

/-- The loop of `simplify_place_projection` over the projection list. -/
def spp_elems (ctx : Ctx) (loc : Location) :
    VnState → List (ProjElem Local TyH) → VnState × List (ProjElem Local TyH)
  | st, [] => (st, [])
  | st, e :: rest =>
    let (st, e2) := spp_elem ctx st loc e
    let (st, rest2) := spp_elems ctx loc st rest
    (st, e2 :: rest2)

/-- The head of `simplify_place_projection`: if the place is an indirect
access, the local is treated as a value and may be replaced by a
dominating SSA local holding the same value. -/
def spp_base (ctx : Ctx) (st : VnState) (place : Place) (loc : Location) : VnState × Place :=
  if place.is_indirect then
    match st.locals.getD place.localIdx none with
    | some base =>
      match try_as_local ctx st base loc with
      | some newLocal =>
        ({ st with reusedLocals := st.reusedLocals.insert newLocal },
         { place with localIdx := newLocal })
      | none => (st, place)
    | none => (st, place)
  else (st, place)

/-- `VnState::simplify_place_projection`: if the place is an indirect
access, its base local may be replaced by a dominating SSA local holding
the same value; then each `Index` projection is simplified. -/
def simplify_place_projection (ctx : Ctx) (st : VnState) (place : Place) (loc : Location) :
    VnState × Place :=
  let (st, place) := spp_base ctx st place loc
  let (st, projection) := spp_elems ctx loc st place.projection
  (st, { place with projection := projection })

/-- The projection loop of `simplify_place_value`.  `place` is the place
after `simplify_place_projection` (it is not mutated by the loop);
`index` is the position of `proj` in `place.projection`; `placeRef` is
the shortest known equivalent place. -/
def spv_loop (ctx : Ctx) (loc : Location) (place : Place) :
    VnState → Nat → Place → VnIndex → List (ProjElem Local TyH) →
    VnState × Place × Option VnIndex
  | st, _, placeRef, value, [] => (st, placeRef, some value)
  | st, index, placeRef, value, proj :: rest =>
    let placeRef :=
      match try_as_local ctx st value loc with
      | some l => { localIdx := l, projection := place.projection.drop index }
      | none => placeRef
    let base : Place := { localIdx := place.localIdx, projection := place.projection.take index }
    match project ctx st base value proj with
    | (st, none) => (st, placeRef, none)
    | (st, some value2) => spv_loop ctx loc place st (index + 1) placeRef value2 rest

/-- `VnState::simplify_place_value`: the value read from a place, also
rewriting the place to the shortest known equivalent form. -/
def simplify_place_value (ctx : Ctx) (st : VnState) (place : Place) (loc : Location) :
    VnState × Place × Option VnIndex :=
  let (st, place) := simplify_place_projection ctx st place loc
  match st.locals.getD place.localIdx none with
  | none => (st, place, none)
  | some value0 =>
    match spv_loop ctx loc place st 0 place value0 place.projection with
    | (st, _, none) => (st, place, none)
    | (st, placeRef, some value) =>
      let placeRef :=
        match try_as_local ctx st value loc with
        | some newLocal => ({ localIdx := newLocal, projection := [] } : Place)
        | none => placeRef
      if placeRef.localIdx ≠ place.localIdx ∨
          placeRef.projection.length < place.projection.length then
        ({ st with reusedLocals := st.reusedLocals.insert placeRef.localIdx }, placeRef, some value)
      else (st, place, some value)

/-- `VnState::simplify_operand`: constants are interned; copies and moves
are simplified through their place, and rewritten to a constant operand
when `try_as_constant` succeeds. -/
def simplify_operand (ctx : Ctx) (st : VnState) (operand : Operand) (loc : Location) :
    VnState × Operand × Option VnIndex :=
  match operand with
  | .constant c =>
    let const2 := ctx.normalize c.const_
    let (st, r) := insert_constant ctx st const2
    (st, operand, r)
  | .copy place =>
    match simplify_place_value ctx st place loc with
    | (st, place2, none) => (st, .copy place2, none)
    | (st, place2, some value) =>
      match try_as_constant ctx st value with
      | some c => (st, .constant c, some value)
      | none => (st, .copy place2, some value)
  | .move place =>
    match simplify_place_value ctx st place loc with
    | (st, place2, none) => (st, .move place2, none)
    | (st, place2, some value) =>
      match try_as_constant ctx st value with
      | some c => (st, .constant c, some value)
      | none => (st, .move place2, some value)

/-- `VnState::simplify_discriminant`: the discriminant of an aggregate of a
known enum variant folds to the constant scalar for that variant. -/
def simplify_discriminant (ctx : Ctx) (st : VnState) (place : VnIndex) :
    VnState × Option VnIndex :=
  match get_value st place with
  | .aggregate (.def_ did args) variantIndex _ =>
    if ctx.defKindIsEnum did then
      let enumTy := ctx.typeOfInstantiate did args
      match ctx.discrForVariantScalar enumTy variantIndex with
      | none => (st, none)
      | some (s, t) =>
        let (st, i) := insert_scalar ctx st s t
        (st, some i)
    else (st, none)
  | _ => (st, none)

/-- The field collection of `simplify_aggregate`:
`fields.iter_mut().map(|op| simplify_operand(op).or_else(new_opaque)).collect::<Option<Vec<_>>>()`.
`collect` over `Option` short-circuits, so operands after the first
failure are left untouched. -/
def simplify_agg_fields (ctx : Ctx) (loc : Location) :
    VnState → List Operand → VnState × List Operand × Option (List VnIndex)
  | st, [] => (st, [], some [])
  | st, op :: rest =>
    let (st, op2, v?) := simplify_operand ctx st op loc
    match (match v? with
           | some v => (st, some v)
           | none => new_anon ctx st) with
    | (st, none) => (st, op2 :: rest, none)
    | (st, some v) =>
      match simplify_agg_fields ctx loc st rest with
      | (st, rest2, none) => (st, op2 :: rest2, none)
      | (st, rest2, some vs) => (st, op2 :: rest2, some (v :: vs))

/-- The tail of `simplify_aggregate` after the operands have been
simplified (`idxs` are their value indices): apply the
array-of-constant-replication rewrite when the aggregate is an array of
more than four identical values, and intern the resulting value. -/
def simplify_agg_result (ctx : Ctx) (st : VnState) (kind : AggregateKind)
    (fields2 : List Operand) (loc : Location) (ty : AggregateTyV) (variantIndex : Nat)
    (idxs : List VnIndex) : VnState × Rvalue × Option VnIndex :=
  if ty == AggregateTyV.array && idxs.length > 4 then
    match idxs.head? with
    | none =>   -- unreachable: idxs.length > 4
      let (st, i) := VnState.insert ctx st (.aggregate ty variantIndex idxs)
      (st, .aggregate kind fields2, some i)
    | some first =>
      if idxs.all (fun v => v == first) then
        let len := ctx.constFromUsize idxs.length
        let (st, rv2) :=
          match try_as_constant ctx st first with
          | some c => (st, Rvalue.repeat (.constant c) len)
          | none =>
            match try_as_local ctx st first loc with
            | some l =>
              ({ st with reusedLocals := st.reusedLocals.insert l },
               Rvalue.repeat (.copy { localIdx := l, projection := [] }) len)
            | none => (st, Rvalue.aggregate kind fields2)
        let (st, i) := VnState.insert ctx st (.repeat first len)
        (st, rv2, some i)
      else
        let (st, i) := VnState.insert ctx st (.aggregate ty variantIndex idxs)
        (st, .aggregate kind fields2, some i)
  else
    let (st, i) := VnState.insert ctx st (.aggregate ty variantIndex idxs)
    (st, .aggregate kind fields2, some i)

/-- The tail of `simplify_aggregate` after the empty-aggregate fast path:
select the `AggregateTy`, simplify the operands, and hand over to
`simplify_agg_result`.  (The `assert!(!fields.is_empty())` of the
`Array`/`Tuple` arms is an internal invariant — those kinds with empty
fields were folded by the fast path — and is not modelled.) -/
def simplify_aggregate_rest (ctx : Ctx) (st : VnState) (kind : AggregateKind)
    (fields : List Operand) (loc : Location) : VnState × Rvalue × Option VnIndex :=
  let tyVariant? : Option (AggregateTyV × Nat) := match kind with
    | .array _ => some (.array, 0)
    | .tuple => some (.tuple, 0)
    | .closure did args => some (.def_ did args, 0)
    | .coroutine did args _ => some (.def_ did args, 0)
    | .adt did variantIndex args _ none => some (.def_ did args, variantIndex)
    | .adt _ _ _ _ (some _) => none   -- do not track unions
  match tyVariant? with
  | none => (st, .aggregate kind fields, none)
  | some (ty, variantIndex) =>
    match simplify_agg_fields ctx loc st fields with
    | (st2, fields2, none) => (st2, .aggregate kind fields2, none)
    | (st2, fields2, some idxs) =>
      simplify_agg_result ctx st2 kind fields2 loc ty variantIndex idxs

/-- The kind-level condition of `simplify_aggregate`'s empty-aggregate fast
path (its `is_zst` computation): arrays, tuples and closures are always
zero-sized when empty; an ADT is unless it is an enum; a coroutine never
is. -/
def empty_agg_is_zst (ctx : Ctx) (kind : AggregateKind) : Bool :=
  match kind with
  | .array _ | .tuple | .closure _ _ => true
  | .adt did _ _ _ _ => !ctx.defKindIsEnum did
  | .coroutine _ _ _ => false

/-- `VnState::simplify_aggregate`.  An empty aggregate of a kind that is
always zero-sized (array, tuple, closure, or a non-enum ADT) folds to a
`Const::zero_sized` constant. -/
def simplify_aggregate (ctx : Ctx) (st : VnState) (rvalue : Rvalue) (loc : Location) :
    VnState × Rvalue × Option VnIndex :=
  match rvalue with
  | .aggregate kind fields =>
    if fields.isEmpty then
      -- only enums can be non-ZST; coroutines are never ZST (they contain
      -- the implicit state)
      let is_zst : Bool := empty_agg_is_zst ctx kind
      if is_zst then
        let ty := ctx.rvalueTy rvalue
        let (st, r) := insert_constant ctx st (ctx.zeroSized ty)
        (st, rvalue, r)
      else simplify_aggregate_rest ctx st kind fields loc
    else simplify_aggregate_rest ctx st kind fields loc
  | _ => (st, rvalue, none)   -- the source `bug!()`s here; unreachable

/-- `VnState::simplify_rvalue`. -/
def simplify_rvalue (ctx : Ctx) (st : VnState) (rvalue : Rvalue) (loc : Location) :
    VnState × Rvalue × Option VnIndex :=
  match rvalue with
  | .use operand =>
    let (st, operand2, v?) := simplify_operand ctx st operand loc
    (st, .use operand2, v?)
  | .copyForDeref place =>
    -- treated as `Use(Copy(place))`, and the rvalue is replaced by the `Use`
    let operand := Operand.copy place
    let (st, operand2, v?) := simplify_operand ctx st operand loc
    (st, .use operand2, v?)
  | .repeat op amount =>
    match simplify_operand ctx st op loc with
    | (st, op2, none) => (st, .repeat op2 amount, none)
    | (st, op2, some v) =>
      let (st, i) := VnState.insert ctx st (.repeat v amount)
      (st, .repeat op2 amount, some i)
  | .nullaryOp op ty =>
    let (st, i) := VnState.insert ctx st (.nullaryOp op ty)
    (st, rvalue, some i)
  | .aggregate _ _ => simplify_aggregate ctx st rvalue loc
  | .ref region borrowKind place =>
    let (st, place2) := simplify_place_projection ctx st place loc
    let (st, r) := new_pointer ctx st place2 (.ref borrowKind)
    (st, .ref region borrowKind place2, r)
  | .addressOf mutbl place =>
    let (st, place2) := simplify_place_projection ctx st place loc
    let (st, r) := new_pointer ctx st place2 (.address mutbl)
    (st, .addressOf mutbl place2, r)
  | .len place =>
    match simplify_place_value ctx st place loc with
    | (st, place2, none) => (st, .len place2, none)
    | (st, place2, some v) =>
      let (st, i) := VnState.insert ctx st (.len v)
      (st, .len place2, some i)
  | .cast kind op toTy =>
    let fromTy := ctx.operandTy op
    match simplify_operand ctx st op loc with
    | (st, op2, none) => (st, .cast kind op2 toTy, none)
    | (st, op2, some v) =>
      match kind with
      | .pointerCoercion .reifyFnPointer | .pointerCoercion .closureFnPointer =>
        -- each reification of a generic fn may get a different pointer
        let (st, r) := new_anon ctx st
        (st, .cast kind op2 toTy, r)
      | _ =>
        let (st, i) := VnState.insert ctx st (.cast kind v fromTy toTy)
        (st, .cast kind op2 toTy, some i)
  | .binaryOp op lhs rhs =>
    let (st, lhs2, l?) := simplify_operand ctx st lhs loc
    let (st, rhs2, r?) := simplify_operand ctx st rhs loc
    match l?, r? with
    | some l, some r =>
      let (st, i) := VnState.insert ctx st (.binaryOp op l r)
      (st, .binaryOp op lhs2 rhs2, some i)
    | _, _ => (st, .binaryOp op lhs2 rhs2, none)
  | .checkedBinaryOp op lhs rhs =>
    let (st, lhs2, l?) := simplify_operand ctx st lhs loc
    let (st, rhs2, r?) := simplify_operand ctx st rhs loc
    match l?, r? with
    | some l, some r =>
      let (st, i) := VnState.insert ctx st (.checkedBinaryOp op l r)
      (st, .checkedBinaryOp op lhs2 rhs2, some i)
    | _, _ => (st, .checkedBinaryOp op lhs2 rhs2, none)
  | .unaryOp op arg =>
    match simplify_operand ctx st arg loc with
    | (st, arg2, none) => (st, .unaryOp op arg2, none)
    | (st, arg2, some v) =>
      let (st, i) := VnState.insert ctx st (.unaryOp op v)
      (st, .unaryOp op arg2, some i)
  | .discriminant place =>
    match simplify_place_value ctx st place loc with
    | (st, place2, none) => (st, .discriminant place2, none)
    | (st, place2, some v) =>
      match simplify_discriminant ctx st v with
      | (st, some d) => (st, .discriminant place2, some d)
      | (st, none) =>
        let (st, i) := VnState.insert ctx st (.discriminant v)
        (st, .discriminant place2, some i)
  | .threadLocalRef _ => (st, rvalue, none)
  | .shallowInitBox _ _ => (st, rvalue, none)

/-- The pass's `visit_operand` hook of the mutation visitor: simplify the
operand (possibly rewriting it to a constant), discarding the value. -/
def visit_operand (ctx : Ctx) (st : VnState) (op : Operand) (loc : Location) :
    VnState × Operand :=
  let (st, op2, _) := simplify_operand ctx st op loc
  (st, op2)

/-- The pass's `visit_place` hook: `simplify_place_projection`. -/
def visit_place (ctx : Ctx) (st : VnState) (place : Place) (loc : Location) :
    VnState × Place :=
  simplify_place_projection ctx st place loc

/-- Visit a list of operands in order (the scaffold's traversal of an
aggregate's operands). -/
def visit_operands (ctx : Ctx) (loc : Location) :
    VnState → List Operand → VnState × List Operand
  | st, [] => (st, [])
  | st, op :: rest =>
    let (st, op2) := visit_operand ctx st op loc
    let (st, rest2) := visit_operands ctx loc st rest
    (st, op2 :: rest2)

/-- The generic `super_rvalue` of the mutation-visitor scaffold, with the
pass's hooks plugged in: every inner operand goes through `visit_operand`,
every inner place through `visit_place`. -/
def super_rvalue (ctx : Ctx) (st : VnState) (rvalue : Rvalue) (loc : Location) :
    VnState × Rvalue :=
  match rvalue with
  | .use op =>
    let (st, op2) := visit_operand ctx st op loc
    (st, .use op2)
  | .repeat op c =>
    let (st, op2) := visit_operand ctx st op loc
    (st, .repeat op2 c)
  | .ref region bk place =>
    let (st, place2) := visit_place ctx st place loc
    (st, .ref region bk place2)
  | .addressOf m place =>
    let (st, place2) := visit_place ctx st place loc
    (st, .addressOf m place2)
  | .len place =>
    let (st, place2) := visit_place ctx st place loc
    (st, .len place2)
  | .cast k op t =>
    let (st, op2) := visit_operand ctx st op loc
    (st, .cast k op2 t)
  | .binaryOp o lhs rhs =>
    let (st, lhs2) := visit_operand ctx st lhs loc
    let (st, rhs2) := visit_operand ctx st rhs loc
    (st, .binaryOp o lhs2 rhs2)
  | .checkedBinaryOp o lhs rhs =>
    let (st, lhs2) := visit_operand ctx st lhs loc
    let (st, rhs2) := visit_operand ctx st rhs loc
    (st, .checkedBinaryOp o lhs2 rhs2)
  | .nullaryOp o t => (st, .nullaryOp o t)
  | .unaryOp o a =>
    let (st, a2) := visit_operand ctx st a loc
    (st, .unaryOp o a2)
  | .discriminant place =>
    let (st, place2) := visit_place ctx st place loc
    (st, .discriminant place2)
  | .aggregate k fields =>
    let (st, fields2) := visit_operands ctx loc st fields
    (st, .aggregate k fields2)
  | .threadLocalRef d => (st, .threadLocalRef d)
  | .shallowInitBox op t =>
    let (st, op2) := visit_operand ctx st op loc
    (st, .shallowInitBox op2 t)
  | .copyForDeref place =>
    let (st, place2) := visit_place ctx st place loc
    (st, .copyForDeref place2)

/-- The generic `super_statement` with the pass's hooks: an assignment
visits its left-hand place and its rvalue; storage markers and nops visit
nothing the pass hooks. -/
def super_statement (ctx : Ctx) (st : VnState) (stmt : Statement) (loc : Location) :
    VnState × Statement :=
  match stmt with
  | .assign place rvalue =>
    let (st, place2) := visit_place ctx st place loc
    let (st, rvalue2) := super_rvalue ctx st rvalue loc
    (st, .assign place2 rvalue2)
  | s => (st, s)

/-- The pass's `visit_statement`: an assignment whose rvalue is not already
a constant use is simplified, then rewritten to a constant
(`try_as_constant`) or to a copy of a dominating local (`try_as_local`);
every other statement goes to `super_statement`. -/
def visit_statement (ctx : Ctx) (st : VnState) (stmt : Statement) (loc : Location) :
    VnState × Statement :=
  match stmt with
  | .assign lhs rvalue =>
    if (match rvalue with | .use (.constant _) => true | _ => false) then
      super_statement ctx st stmt loc
    else
      let (st, rvalue2, v?) := simplify_rvalue ctx st rvalue loc
      match v? with
      | none => (st, .assign lhs rvalue2)
      | some value =>
        match try_as_constant ctx st value with
        | some c => (st, .assign lhs (.use (.constant c)))
        | none =>
          match try_as_local ctx st value loc with
          | some l =>
            if rvalue2 ≠ Rvalue.use (.move { localIdx := l, projection := [] }) then
              ({ st with reusedLocals := st.reusedLocals.insert l },
               .assign lhs (.use (.copy { localIdx := l, projection := [] })))
            else (st, .assign lhs rvalue2)
          | none => (st, .assign lhs rvalue2)
  | _ => super_statement ctx st stmt loc

/-- `StorageRemover::visit_operand`: a `Move` of a whole reused local
becomes a `Copy`. -/
def remover_operand (reused : List Local) (op : Operand) : Operand :=
  match op with
  | .move place =>
    match place.as_local with
    | some l => if l ∈ reused then .copy place else op
    | none => op
  | _ => op

/-- Apply an operand rewrite to every operand of an rvalue (the
mutation-visitor scaffold's traversal, as `StorageRemover` uses it). -/
def map_rvalue_operands (f : Operand → Operand) (rv : Rvalue) : Rvalue :=
  match rv with
  | .use op => .use (f op)
  | .repeat op c => .repeat (f op) c
  | .cast k op t => .cast k (f op) t
  | .binaryOp o l r => .binaryOp o (f l) (f r)
  | .checkedBinaryOp o l r => .checkedBinaryOp o (f l) (f r)
  | .unaryOp o a => .unaryOp o (f a)
  | .aggregate k fs => .aggregate k (fs.map f)
  | .shallowInitBox op t => .shallowInitBox (f op) t
  | rv => rv

/-- `StorageRemover::visit_statement`: storage markers of reused locals
become nops (both of a pair, #107511); other statements have their
operands visited. -/
def remover_statement (reused : List Local) (s : Statement) : Statement :=
  match s with
  | .storageLive l => if l ∈ reused then .nop else s
  | .storageDead l => if l ∈ reused then .nop else s
  | .assign place rv => .assign place (map_rvalue_operands (remover_operand reused) rv)
  | s => s

/-- The `StorageRemover` traversal over the whole body. -/
def remove_storage (reused : List Local) (body : Body) : Body :=
  { body with blocks := body.blocks.map fun stmts => stmts.map (remover_statement reused) }

/-- The statement at a location. -/
def get_stmt (body : Body) (loc : Location) : Option Statement :=
  match body.blocks.get? loc.block with
  | none => none
  | some stmts => stmts.get? loc.statementIndex

/-- Replace the statement at a location. -/
def set_stmt (body : Body) (loc : Location) (s : Statement) : Body :=
  match body.blocks.get? loc.block with
  | none => body
  | some stmts =>
    { body with blocks := body.blocks.set loc.block (stmts.set loc.statementIndex s) }

/-- `VnState::new`. -/
def init_state (body : Body) : VnState :=
  { localDecls := body.localDecls
    locals := List.replicate body.localDecls.length none
    revLocals := []
    values := []
    evaluated := []
    counter := some 0
    reusedLocals := [] }

/-- One step of phase 1 (the closure passed to
`ssa.for_each_assignment_mut`): an `Arg`/`Terminator` assignment learns a
fresh anonymous value; an rvalue assignment is simplified in place, skipped
when the local's declared type differs from the rvalue's type, and
otherwise recorded via `assign`. -/
def phase1_step (ctx : Ctx) (bs : Body × VnState) (a : SsaAssign) : Body × VnState :=
  match a with
  | .noValue l =>
    let (body, st) := bs
    match new_anon ctx st with
    | (st, some v) => (body, assign ctx st l v)
    | (st, none) => (body, st)   -- counter is `some` during phase 1: unreachable
  | .rvalueAt l loc =>
    let (body, st) := bs
    match get_stmt body loc with
    | some (.assign lhs rv) =>
      let (st, rv2, v?) := simplify_rvalue ctx st rv loc
      let body := set_stmt body loc (.assign lhs rv2)
      -- FIXME(#112651): `rvalue` may have a subtype to `local`; only an
      -- exact type match marks the local reusable
      if st.localDecls.getD l 0 ≠ ctx.rvalueTy rv2 then (body, st)
      else
        match (match v? with
               | some v => (st, some v)
               | none => new_anon ctx st) with
        | (st, some v) => (body, assign ctx st l v)
        | (st, none) => (body, st)
    | _ => (body, st)

/-- Phase 1: learn the values of all SSA assignments, in the oracle's
order. -/
def phase1 (ctx : Ctx) (ssa : List SsaAssign) (body : Body) : Body × VnState :=
  ssa.foldl (phase1_step ctx) (body, init_state body)

/-- `visit_basic_block_data` over a block's statements, numbering
locations. -/
def visit_statements (ctx : Ctx) (bb : Nat) :
    VnState → Nat → List Statement → VnState × List Statement
  | st, _, [] => (st, [])
  | st, i, s :: rest =>
    let (st, s2) := visit_statement ctx st s { block := bb, statementIndex := i }
    let (st, rest2) := visit_statements ctx bb st (i + 1) rest
    (st, s2 :: rest2)

/-- One block of phase 2. -/
def phase2_step (ctx : Ctx) (bs : Body × VnState) (bb : Nat) : Body × VnState :=
  let (body, st) := bs
  match body.blocks.get? bb with
  | none => (body, st)
  | some stmts =>
    let (st, stmts2) := visit_statements ctx bb st 0 stmts
    ({ body with blocks := body.blocks.set bb stmts2 }, st)

/-- Phase 2: rewrite all blocks in reverse postorder (`rpo` is the order
the external CFG service provides). -/
def phase2 (ctx : Ctx) (rpo : List Nat) (bs : Body × VnState) : Body × VnState :=
  rpo.foldl (phase2_step ctx) bs

/-- `propagate_ssa`, the top-level orchestration: phase 1 over the SSA
oracle's assignments, disable minting, phase 2 over the blocks, then the
storage fixup for reused locals. -/
def propagate_ssa (ctx : Ctx) (ssa : List SsaAssign) (rpo : List Nat) (body : Body) : Body :=
  let (body, st) := phase1 ctx ssa body
  -- stop creating counter-carrying values during replacement
  let st := { st with counter := none }
  let (body, st) := phase2 ctx rpo (body, st)
  remove_storage st.reusedLocals body

/-- The specification's wording of the empty-aggregate rule: the
aggregate's type is a zero-sized type, it is not a (necessarily non-empty,
because a variant of it is being constructed) enum, and it is not a
coroutine.  Stated against the semantic `tyIsZst` oracle. -/
def spec_empty_agg_foldable (ctx : Ctx) (kind : AggregateKind) : Bool :=
  ctx.tyIsZst (ctx.rvalueTy (.aggregate kind [])) &&
  !(match kind with | .adt did _ _ _ _ => ctx.defKindIsEnum did | _ => false) &&
  !(match kind with | .coroutine _ _ _ => true | _ => false)

/-- Matching scalar/scalar or scalar-pair/scalar-pair ABIs: the condition
under which `eval_to_const` transmutes an immediate. -/
def abi_pair_ok : Abi → Abi → Bool
  | .scalar _, .scalar _ => true
  | .scalarPair, .scalarPair => true
  | _, _ => false

/-- A value that carries no freshness counter: not an anonymous value, not
an address, and a constant only if deterministic.  These are the values
`insert` may still intern after minting is disabled. -/
def MintFree (ctx : Ctx) : Value → Prop
  | .anon _ => False
  | .address _ _ _ => False
  | .constant c _ => ctx.isDeterministic c = true
  | _ => True

/-- All freshness tags interned so far are below the counter: anonymous
tags, address provenances, and disambiguators of non-deterministic
constants.  `VnState::new` establishes it at `n = 0` and every minting
step preserves it; it is what makes minted values genuinely fresh. -/
def tag_bound (ctx : Ctx) (n : Nat) (st : VnState) : Bool :=
  st.values.all fun v =>
    match v with
    | .anon k => decide (k < n)
    | .address _ _ p => decide (p < n)
    | .constant c d => ctx.isDeterministic c || decide (d < n)
    | _ => true

/-- What one phase-2 step may do to the state: it may record reused locals
only when `try_as_local` (over the initial `rev_locals`) returns them;
it never changes `rev_locals`; it only appends to `values`; and once the
counter is disabled it stays disabled and every appended value is
`MintFree`. -/
structure PhaseStep (ctx : Ctx) (loc : Location) (st st2 : VnState) : Prop where
  reused : ∀ l ∈ st2.reusedLocals,
    l ∈ st.reusedLocals ∨ ∃ index, try_as_local_rev ctx st.revLocals index loc = some l
  rev : st2.revLocals = st.revLocals
  vals : st2.values.take st.values.length = st.values
  no_mint : st.counter = none →
    st2.counter = none ∧ ∀ v ∈ st2.values.drop st.values.length, MintFree ctx v

/-- `PhaseStep` composed over many statements (the per-statement location
is existentially absorbed): what the whole phase-2 traversal may do. -/
structure PassStep (ctx : Ctx) (st st2 : VnState) : Prop where
  reused : ∀ l ∈ st2.reusedLocals,
    l ∈ st.reusedLocals ∨
    ∃ index loc, try_as_local_rev ctx st.revLocals index loc = some l
  rev : st2.revLocals = st.revLocals
  vals : st2.values.take st.values.length = st.values
  no_mint : st.counter = none →
    st2.counter = none ∧ ∀ v ∈ st2.values.drop st.values.length, MintFree ctx v

/-- A default oracle instance: every query fails or returns a fixed
datum.  Concrete scenarios below override the fields they exercise. -/
def ctx0 : Ctx where
  assignmentDominates := fun _ _ => false
  featureUnsizedLocals := false
  isSized := fun _ => true
  isFreeze := fun _ => false
  refMutability := fun _ => none
  builtinDeref := fun _ => none
  placeTy := fun _ => 0
  operandTy := fun _ => 0
  rvalueTy := fun _ => 0
  normalize := fun c => c
  isDeterministic := fun _ => true
  zeroSized := fun _ => 0
  fromScalar := fun _ _ => 0
  constFromUsize := fun n => n
  defKindIsEnum := fun _ => false
  typeOfInstantiate := fun _ _ => 0
  tyNewArray := fun _ _ => 0
  tyNewTup := fun _ => 0
  tyIsEnum := fun _ => false
  tyNewRef := fun _ _ => 0
  tyNewPtr := fun _ _ => 0
  bkToMutbl := fun _ => .not
  usizeTy := 0
  boolTy := 0
  tyIsZst := fun _ => true
  evalMirConstant := fun _ => none
  layoutOf := fun _ => none
  usizeLayout := 0
  opLayout := fun _ => 0
  layoutTy := fun _ => 0
  layoutAbi := fun _ => .aggregate 0
  layoutIsZst := fun _ => false
  layoutIsUnsized := fun _ => false
  layoutSizeBytes := fun _ => 0
  layoutAlignBytes := fun _ => 0
  layoutOffsetOfSubfield := fun _ _ => 0
  uninitImm := fun _ => 0
  allocate := fun _ => none
  projectDowncastM := fun _ _ => none
  projectFieldM := fun _ _ => none
  copyOp := fun _ _ => false
  writeDiscriminant := fun _ _ => false
  mplaceProvenance := fun _ => 0
  allocMarkImmutable := fun _ => false
  mplaceToOp := fun _ => 0
  ecxProjectOp := fun _ _ => none
  derefPointer := fun _ => none
  ecxProjectM := fun _ _ => none
  mplaceToRefImm := fun _ => 0
  mplaceLayoutTy := fun _ => 0
  immFromImmediate := fun _ _ => 0
  readDiscriminant := fun _ => none
  discrForVariantOp := fun _ _ => none
  discrForVariantScalar := fun _ _ => none
  opLen := fun _ => none
  tryFromUint := fun _ _ => none
  readImmediate := fun _ => none
  overflowingUnaryOp := fun _ _ => none
  overflowingBinaryOp := fun _ _ _ => none
  toScalar := fun _ => 0
  fromScalarPair := fun _ _ _ => 0
  intToIntOrFloat := fun _ _ => none
  floatToFloatOrInt := fun _ _ => none
  asMplaceOrImmIsRight := fun _ => false
  offsetZero := fun _ _ => none
  readTargetUsize := fun _ => none
  readScalar := fun _ => none
  scalarIsInt := fun _ => false
  asMplaceLeft := fun _ => none
  sizeAndAlignOfMplace := fun _ => none
  mplacePtr := fun _ => 0
  getPtrAlloc := fun _ _ => none
  allocHasProvenance := fun _ => false
  intoPointerOrAddr := fun _ => none
  ptrIntoParts := fun _ => (0, 0)
  internConstAlloc := fun _ => false
  globalAllocIsMemory := fun _ => false
  internWithTempAlloc := fun _ _ => none
  allocProvenanceEmpty := fun _ => false
  mkConstVal := fun _ _ => 0

/-- An empty interner state with minting enabled. -/
def st_empty : VnState where
  localDecls := []
  locals := []
  revLocals := []
  values := []
  evaluated := []
  counter := some 0
  reusedLocals := []

/-- Scenario for the dominance witness: local 3 is an SSA local whose
assignment dominates everything. -/
def ctx_w1 : Ctx := { ctx0 with assignmentDominates := fun l _ => l == 3 }

/-- State for the dominance witness: value 0 is held by local 2 (the
statement's operand) and by the SSA local 3. -/
def st_w1 : VnState where
  localDecls := [0, 0, 0, 0]
  locals := [none, none, some 0, none]
  revLocals := [(0, [3])]
  values := [.anon 0]
  evaluated := [none]
  counter := none
  reusedLocals := []

/-- The statement rewritten in the dominance witness: `_1 = _2`. -/
def stmt_w1 : Statement := .assign ⟨1, []⟩ (.use (.copy ⟨2, []⟩))

/-- The location of the dominance witness's statement. -/
def loc_w1 : Location := ⟨0, 0⟩

/-- Oracle for the transmute counterexample: `offset` at zero always
succeeds, type 200 has layout 20, and every ABI is non-scalar; the
evaluated operand is a memory place (`asMplaceOrImmIsRight` is false). -/
def ctx_c6 : Ctx :=
  { ctx0 with
    offsetZero := fun _ _ => some 77
    layoutOf := fun t => if t = 200 then some 20 else none }

/-- State for the transmute counterexample: value 1 is
`Transmute(value 0) : ty 100 -> ty 200`, and value 0 evaluated to
operand 5. -/
def st_c6 : VnState where
  localDecls := []
  locals := []
  revLocals := []
  values := [.anon 0, .cast .transmute 0 100 200]
  evaluated := [some 5, none]
  counter := none
  reusedLocals := []

/-- Oracle for the transmute witness: as `ctx_c6` but the evaluated
operand is an immediate and every ABI is an initialized scalar. -/
def ctx_c6w : Ctx :=
  { ctx_c6 with
    asMplaceOrImmIsRight := fun _ => true
    layoutAbi := fun _ => .scalar true }

/-- Oracle for the sizedness counterexample: the `unsized_locals` feature
is disabled and no type is sized. -/
def ctx_c7 : Ctx := { ctx0 with featureUnsizedLocals := false, isSized := fun _ => false }

/-- Oracle for the sizedness witness: the feature is enabled and no type
is sized. -/
def ctx_c7b : Ctx := { ctx0 with featureUnsizedLocals := true, isSized := fun _ => false }

/-- State with one local of (unsized) type 5. -/
def st_c7 : VnState where
  localDecls := [5]
  locals := [none]
  revLocals := []
  values := []
  evaluated := []
  counter := some 0
  reusedLocals := []

/-- Body for the phase-2 interning counterexample: `_0 = Add(5u, 6u)` with
constant operands. -/
def body_c8 : Body where
  localDecls := [0, 0]
  blocks := [[.assign ⟨0, []⟩ (.binaryOp 0 (.constant ⟨5⟩) (.constant ⟨6⟩))]]

/-- Body for the no-op counterexample: `_1 = CopyForDeref(*_2)` and no SSA
locals. -/
def body_c9 : Body where
  localDecls := [0, 0, 0]
  blocks := [[.assign ⟨1, []⟩ (.copyForDeref ⟨2, [.deref]⟩)]]

/-- State for the constant-index witness: value 0 is the array aggregate
`[10, 20, 30]`. -/
def st_c10 : VnState where
  localDecls := []
  locals := []
  revLocals := []
  values := [.aggregate .array 0 [10, 20, 30]]
  evaluated := [none]
  counter := none
  reusedLocals := []

theorem find_index_none_iff (l : List Value) (v : Value) :
    find_index l v = none ↔ v ∉ l := by
  induction l with
  | nil => simp [find_index]
  | cons a rest ih =>
    simp only [find_index]
    by_cases h : a = v
    · simp [h]
    · rw [if_neg h]
      simp only [Option.map_eq_none', ih, List.mem_cons]
      constructor
      · rintro hnr (hva | hvr)
        · exact h hva.symm
        · exact hnr hvr
      · intro hn hvr
        exact hn (Or.inr hvr)

theorem find_index_some {l : List Value} {v : Value} {i : Nat}
    (h : find_index l v = some i) : l.get? i = some v := by
  induction l generalizing i with
  | nil => simp [find_index] at h
  | cons a rest ih =>
    simp only [find_index] at h
    by_cases ha : a = v
    · rw [if_pos ha] at h
      cases h
      simp [ha]
    · rw [if_neg ha] at h
      rcases Option.map_eq_some'.mp h with ⟨j, hj, rfl⟩
      simpa using ih hj

theorem find_index_append_self {l : List Value} {v : Value} (h : v ∉ l) :
    find_index (l ++ [v]) v = some l.length := by
  induction l with
  | nil => simp [find_index]
  | cons a rest ih =>
    have ha : ¬(a = v) := fun e => h (e ▸ List.mem_cons_self a rest)
    have hr : v ∉ rest := fun hv => h (List.mem_cons_of_mem a hv)
    show find_index (a :: (rest ++ [v])) v = some (rest.length + 1)
    simp only [find_index, if_neg ha, ih hr, Option.map_some']

theorem insert_found {ctx : Ctx} {st : VnState} {v : Value} {i : Nat}
    (h : find_index st.values v = some i) : VnState.insert ctx st v = (st, i) := by
  unfold VnState.insert
  rw [h]

theorem insert_fresh {ctx : Ctx} {st : VnState} {v : Value} (h : v ∉ st.values) :
    VnState.insert ctx st v =
      (let st1 : VnState := { st with values := st.values ++ [v] }
       { st1 with evaluated := st1.evaluated ++ [eval_to_const ctx st1 st.values.length] },
       st.values.length) := by
  unfold VnState.insert
  rw [(find_index_none_iff st.values v).mpr h]

theorem insert_self_get (ctx : Ctx) (st : VnState) (v : Value) :
    (VnState.insert ctx st v).1.values.get? (VnState.insert ctx st v).2 = some v := by
  unfold VnState.insert
  cases hfi : find_index st.values v with
  | some i => simpa using find_index_some hfi
  | none => simp [List.get?_concat_length]

theorem insert_counter (ctx : Ctx) (st : VnState) (v : Value) :
    (VnState.insert ctx st v).1.counter = st.counter := by
  unfold VnState.insert
  cases hfi : find_index st.values v <;> simp

theorem insert_rev (ctx : Ctx) (st : VnState) (v : Value) :
    (VnState.insert ctx st v).1.revLocals = st.revLocals := by
  unfold VnState.insert
  cases hfi : find_index st.values v <;> simp

theorem insert_reused (ctx : Ctx) (st : VnState) (v : Value) :
    (VnState.insert ctx st v).1.reusedLocals = st.reusedLocals := by
  unfold VnState.insert
  cases hfi : find_index st.values v <;> simp

theorem insert_locals (ctx : Ctx) (st : VnState) (v : Value) :
    (VnState.insert ctx st v).1.locals = st.locals := by
  unfold VnState.insert
  cases hfi : find_index st.values v <;> simp

theorem insert_values_or (ctx : Ctx) (st : VnState) (v : Value) :
    (VnState.insert ctx st v).1.values = st.values ∨
    (VnState.insert ctx st v).1.values = st.values ++ [v] := by
  unfold VnState.insert
  cases hfi : find_index st.values v with
  | some i => left; simp
  | none => right; simp

theorem insert_vals_take (ctx : Ctx) (st : VnState) (v : Value) :
    (VnState.insert ctx st v).1.values.take st.values.length = st.values := by
  rcases insert_values_or ctx st v with h | h <;> rw [h]
  · exact List.take_length st.values
  · exact List.take_left st.values [v]

theorem insert_vals_drop (ctx : Ctx) (st : VnState) (v : Value) :
    ∀ w ∈ (VnState.insert ctx st v).1.values.drop st.values.length, w = v := by
  rcases insert_values_or ctx st v with h | h <;> rw [h]
  · simp
  · rw [List.drop_left st.values [v]]
    simp

theorem drop_self_mintfree (ctx : Ctx) (l : List Value) :
    ∀ v ∈ l.drop l.length, MintFree ctx v := by
  rw [List.drop_length]
  intro v hv
  exact absurd hv (List.not_mem_nil v)

theorem ps_rfl (ctx : Ctx) (loc : Location) (st : VnState) : PhaseStep ctx loc st st where
  reused := fun l hl => Or.inl hl
  rev := rfl
  vals := List.take_length _
  no_mint := fun h => ⟨h, drop_self_mintfree ctx st.values⟩

theorem ps_of_eq {ctx : Ctx} {loc : Location} {st st2 : VnState} (h : st2 = st) :
    PhaseStep ctx loc st st2 := h ▸ ps_rfl ctx loc st

theorem ps_len_le {ctx : Ctx} {loc : Location} {st st2 : VnState}
    (h : PhaseStep ctx loc st st2) : st.values.length ≤ st2.values.length := by
  have h2 := congrArg List.length h.vals
  rw [List.length_take] at h2
  exact min_eq_left_iff.mp h2

theorem ps_trans {ctx : Ctx} {loc : Location} {st1 st2 st3 : VnState}
    (h12 : PhaseStep ctx loc st1 st2) (h23 : PhaseStep ctx loc st2 st3) :
    PhaseStep ctx loc st1 st3 := by
  have hle : st1.values.length ≤ st2.values.length := ps_len_le h12
  refine ⟨?_, h23.rev.trans h12.rev, ?_, ?_⟩
  · intro l hl
    rcases h23.reused l hl with hmem | ⟨index, hidx⟩
    · exact h12.reused l hmem
    · rw [h12.rev] at hidx
      exact Or.inr ⟨index, hidx⟩
  · calc st3.values.take st1.values.length
        = (st3.values.take st2.values.length).take st1.values.length := by
          rw [List.take_take, Nat.min_eq_left hle]
      _ = st2.values.take st1.values.length := by rw [h23.vals]
      _ = st1.values := h12.vals
  · intro h1
    obtain ⟨hc2, hm12⟩ := h12.no_mint h1
    obtain ⟨hc3, hm23⟩ := h23.no_mint hc2
    refine ⟨hc3, ?_⟩
    intro v hv
    have hsplit : st3.values.drop st1.values.length =
        st2.values.drop st1.values.length ++ st3.values.drop st2.values.length := by
      conv_lhs => rw [← List.take_append_drop st2.values.length st3.values, h23.vals]
      exact List.drop_append_of_le_length hle
    rw [hsplit] at hv
    rcases List.mem_append.mp hv with hv | hv
    · exact hm12 v hv
    · exact hm23 v hv

theorem pass_of_ps {ctx : Ctx} {loc : Location} {st st2 : VnState}
    (h : PhaseStep ctx loc st st2) : PassStep ctx st st2 where
  reused := fun l hl => by
    rcases h.reused l hl with hmem | ⟨index, hidx⟩
    · exact Or.inl hmem
    · exact Or.inr ⟨index, loc, hidx⟩
  rev := h.rev
  vals := h.vals
  no_mint := h.no_mint

theorem pass_rfl (ctx : Ctx) (st : VnState) : PassStep ctx st st where
  reused := fun l hl => Or.inl hl
  rev := rfl
  vals := List.take_length _
  no_mint := fun h => ⟨h, drop_self_mintfree ctx st.values⟩

theorem pass_len_le {ctx : Ctx} {st st2 : VnState}
    (h : PassStep ctx st st2) : st.values.length ≤ st2.values.length := by
  have h2 := congrArg List.length h.vals
  rw [List.length_take] at h2
  exact min_eq_left_iff.mp h2

theorem pass_trans {ctx : Ctx} {st1 st2 st3 : VnState}
    (h12 : PassStep ctx st1 st2) (h23 : PassStep ctx st2 st3) :
    PassStep ctx st1 st3 := by
  have hle : st1.values.length ≤ st2.values.length := pass_len_le h12
  refine ⟨?_, h23.rev.trans h12.rev, ?_, ?_⟩
  · intro l hl
    rcases h23.reused l hl with hmem | ⟨index, loc, hidx⟩
    · exact h12.reused l hmem
    · rw [h12.rev] at hidx
      exact Or.inr ⟨index, loc, hidx⟩
  · calc st3.values.take st1.values.length
        = (st3.values.take st2.values.length).take st1.values.length := by
          rw [List.take_take, Nat.min_eq_left hle]
      _ = st2.values.take st1.values.length := by rw [h23.vals]
      _ = st1.values := h12.vals
  · intro h1
    obtain ⟨hc2, hm12⟩ := h12.no_mint h1
    obtain ⟨hc3, hm23⟩ := h23.no_mint hc2
    refine ⟨hc3, ?_⟩
    intro v hv
    have hsplit : st3.values.drop st1.values.length =
        st2.values.drop st1.values.length ++ st3.values.drop st2.values.length := by
      conv_lhs => rw [← List.take_append_drop st2.values.length st3.values, h23.vals]
      exact List.drop_append_of_le_length hle
    rw [hsplit] at hv
    rcases List.mem_append.mp hv with hv | hv
    · exact hm12 v hv
    · exact hm23 v hv

theorem ps_insert {ctx : Ctx} {loc : Location} {st : VnState} {v : Value}
    (hv : st.counter = none → MintFree ctx v) :
    PhaseStep ctx loc st (VnState.insert ctx st v).1 where
  reused := fun l hl => by
    rw [insert_reused] at hl
    exact Or.inl hl
  rev := insert_rev ctx st v
  vals := insert_vals_take ctx st v
  no_mint := fun h => by
    rw [insert_counter]
    refine ⟨h, fun w hw => ?_⟩
    rw [insert_vals_drop ctx st v w hw]
    exact hv h

theorem ps_set_counter {ctx : Ctx} {loc : Location} {st : VnState} {n : Nat}
    (hc : st.counter = some n) (m : Nat) :
    PhaseStep ctx loc st { st with counter := some m } where
  reused := fun l hl => Or.inl hl
  rev := rfl
  vals := List.take_length _
  no_mint := fun h => by
    rw [hc] at h
    exact Option.noConfusion h

theorem ps_insert_reused {ctx : Ctx} {loc : Location} {st : VnState} {index : VnIndex}
    {l : Local} (h : try_as_local ctx st index loc = some l) :
    PhaseStep ctx loc st { st with reusedLocals := st.reusedLocals.insert l } where
  reused := fun l2 hl2 => by
    rcases List.mem_insert_iff.mp hl2 with rfl | hmem
    · exact Or.inr ⟨index, h⟩
    · exact Or.inl hmem
  rev := rfl
  vals := List.take_length _
  no_mint := fun h2 => ⟨h2, drop_self_mintfree ctx st.values⟩

theorem ps_new_anon (ctx : Ctx) (loc : Location) (st : VnState) :
    PhaseStep ctx loc st (new_anon ctx st).1 := by
  unfold new_anon
  cases hc : st.counter with
  | none => exact ps_rfl ctx loc st
  | some n =>
    dsimp only
    have h1 : PhaseStep ctx loc st { st with counter := some (n + 1) } :=
      ps_set_counter hc (n + 1)
    have h2 := @ps_insert ctx loc { st with counter := some (n + 1) } (Value.anon n)
      (fun h => Option.noConfusion h)
    rcases hins : VnState.insert ctx { st with counter := some (n + 1) } (Value.anon n)
      with ⟨stI, iI⟩
    rw [hins] at h2
    exact ps_trans h1 h2

theorem ps_new_pointer (ctx : Ctx) (loc : Location) (st : VnState) (place : Place)
    (kind : AddressKind) : PhaseStep ctx loc st (new_pointer ctx st place kind).1 := by
  unfold new_pointer
  cases hc : st.counter with
  | none => exact ps_rfl ctx loc st
  | some n =>
    dsimp only
    have h1 : PhaseStep ctx loc st { st with counter := some (n + 1) } :=
      ps_set_counter hc (n + 1)
    have h2 := @ps_insert ctx loc { st with counter := some (n + 1) }
      (Value.address place kind n) (fun h => Option.noConfusion h)
    rcases hins : VnState.insert ctx { st with counter := some (n + 1) }
      (Value.address place kind n) with ⟨stI, iI⟩
    rw [hins] at h2
    exact ps_trans h1 h2

theorem ps_insert_constant (ctx : Ctx) (loc : Location) (st : VnState) (c : ConstH) :
    PhaseStep ctx loc st (insert_constant ctx st c).1 := by
  unfold insert_constant
  by_cases hdet : ctx.isDeterministic c
  · rw [if_pos hdet]
    dsimp only
    have h2 := @ps_insert ctx loc st (Value.constant c 0) (fun _ => hdet)
    rcases hins : VnState.insert ctx st (Value.constant c 0) with ⟨stI, iI⟩
    rw [hins] at h2
    exact h2
  · rw [if_neg hdet]
    cases hc : st.counter with
    | none => exact ps_rfl ctx loc st
    | some n =>
      dsimp only
      have h1 : PhaseStep ctx loc st { st with counter := some (n + 1) } :=
        ps_set_counter hc (n + 1)
      have h2 := @ps_insert ctx loc { st with counter := some (n + 1) }
        (Value.constant c n) (fun h => Option.noConfusion h)
      rcases hins : VnState.insert ctx { st with counter := some (n + 1) }
        (Value.constant c n) with ⟨stI, iI⟩
      rw [hins] at h2
      exact ps_trans h1 h2

theorem ps_insert_scalar (ctx : Ctx) (loc : Location) (st : VnState) (s : ScalarH) (ty : TyH) :
    PhaseStep ctx loc st (insert_scalar ctx st s ty).1 := by
  unfold insert_scalar
  have h := ps_insert_constant ctx loc st (ctx.fromScalar s ty)
  rcases hic : insert_constant ctx st (ctx.fromScalar s ty) with ⟨stI, r⟩
  rw [hic] at h
  cases r <;> exact h

theorem ps_insert_pair {ctx : Ctx} {loc : Location} {st : VnState} {v : Value}
    (hv : st.counter = none → MintFree ctx v) :
    PhaseStep ctx loc st
      (match VnState.insert ctx st v with | (st2, i) => (st2, some i)).1 := by
  have h := @ps_insert ctx loc st v hv
  rcases hins : VnState.insert ctx st v with ⟨stI, iI⟩
  rw [hins] at h
  exact h

theorem ps_project (ctx : Ctx) (loc : Location) (st : VnState) (place : Place)
    (value : VnIndex) (proj : ProjElem Local TyH) :
    PhaseStep ctx loc st (project ctx st place value proj).1 := by
  unfold project
  cases proj <;> dsimp only <;> repeat' split
  all_goals
    first
      | exact ps_rfl ctx loc st
      | exact ps_insert_pair (fun _ => by trivial)

theorem ps_spp_elem (ctx : Ctx) (loc : Location) (st : VnState) (e : ProjElem Local TyH) :
    PhaseStep ctx loc st (spp_elem ctx st loc e).1 := by
  unfold spp_elem
  cases e <;> dsimp only <;> repeat' split
  all_goals
    first
      | exact ps_rfl ctx loc st
      | exact ps_insert_reused (by assumption)

theorem ps_spp_elems (ctx : Ctx) (loc : Location) :
    ∀ (es : List (ProjElem Local TyH)) (st : VnState),
    PhaseStep ctx loc st (spp_elems ctx loc st es).1 := by
  intro es
  induction es with
  | nil => intro st; exact ps_rfl ctx loc st
  | cons e rest ih =>
    intro st
    unfold spp_elems
    dsimp only
    have h1 := ps_spp_elem ctx loc st e
    rcases h1e : spp_elem ctx st loc e with ⟨st1, e2⟩
    rw [h1e] at h1
    have h2 := ih st1
    rcases h2e : spp_elems ctx loc st1 rest with ⟨st2, rest2⟩
    rw [h2e] at h2
    exact ps_trans h1 h2

theorem ps_spp_base (ctx : Ctx) (loc : Location) (st : VnState) (place : Place) :
    PhaseStep ctx loc st (spp_base ctx st place loc).1 := by
  unfold spp_base
  repeat' split
  all_goals
    first
      | exact ps_rfl ctx loc st
      | exact ps_insert_reused (by assumption)

theorem ps_simplify_place_projection (ctx : Ctx) (loc : Location) (st : VnState)
    (place : Place) :
    PhaseStep ctx loc st (simplify_place_projection ctx st place loc).1 := by
  unfold simplify_place_projection
  have h1 := ps_spp_base ctx loc st place
  rcases hb : spp_base ctx st place loc with ⟨st1, place1⟩
  rw [hb] at h1
  dsimp only
  have h2 := ps_spp_elems ctx loc place1.projection st1
  rcases he : spp_elems ctx loc st1 place1.projection with ⟨st2, proj2⟩
  rw [he] at h2
  exact ps_trans h1 h2

theorem ps_spv_loop (ctx : Ctx) (loc : Location) (place : Place) :
    ∀ (projs : List (ProjElem Local TyH)) (st : VnState) (index : Nat) (placeRef : Place)
      (value : VnIndex),
    PhaseStep ctx loc st (spv_loop ctx loc place st index placeRef value projs).1 ∧
    ((spv_loop ctx loc place st index placeRef value projs).2.1 = placeRef ∨
     ∃ idx2, try_as_local_rev ctx st.revLocals idx2 loc =
       some (spv_loop ctx loc place st index placeRef value projs).2.1.localIdx) := by
  intro projs
  induction projs with
  | nil =>
    intro st index placeRef value
    exact ⟨ps_rfl ctx loc st, Or.inl rfl⟩
  | cons proj rest ih =>
    intro st index placeRef value
    unfold spv_loop
    cases htal : try_as_local ctx st value loc with
    | none =>
      dsimp only
      have hp := ps_project ctx loc st
        { localIdx := place.localIdx, projection := place.projection.take index } value proj
      rcases hproj : project ctx st
          { localIdx := place.localIdx, projection := place.projection.take index } value proj
        with ⟨st1, r⟩
      rw [hproj] at hp
      cases r with
      | none => exact ⟨hp, Or.inl rfl⟩
      | some value2 =>
        dsimp only
        obtain ⟨hstep, hpr⟩ := ih st1 (index + 1) placeRef value2
        refine ⟨ps_trans hp hstep, ?_⟩
        rcases hpr with hpr | ⟨idx2, hidx⟩
        · exact Or.inl hpr
        · rw [hp.rev] at hidx
          exact Or.inr ⟨idx2, hidx⟩
    | some l =>
      dsimp only
      have hp := ps_project ctx loc st
        { localIdx := place.localIdx, projection := place.projection.take index } value proj
      rcases hproj : project ctx st
          { localIdx := place.localIdx, projection := place.projection.take index } value proj
        with ⟨st1, r⟩
      rw [hproj] at hp
      cases r with
      | none =>
        refine ⟨hp, Or.inr ⟨value, ?_⟩⟩
        exact htal
      | some value2 =>
        dsimp only
        obtain ⟨hstep, hpr⟩ := ih st1 (index + 1)
          { localIdx := l, projection := place.projection.drop index } value2
        refine ⟨ps_trans hp hstep, ?_⟩
        rcases hpr with hpr | ⟨idx2, hidx⟩
        · rw [hpr]
          exact Or.inr ⟨value, htal⟩
        · rw [hp.rev] at hidx
          exact Or.inr ⟨idx2, hidx⟩

theorem ps_simplify_place_value (ctx : Ctx) (loc : Location) (st : VnState) (place : Place) :
    PhaseStep ctx loc st (simplify_place_value ctx st place loc).1 := by
  unfold simplify_place_value
  have h1 := ps_simplify_place_projection ctx loc st place
  rcases hspp : simplify_place_projection ctx st place loc with ⟨st1, place1⟩
  rw [hspp] at h1
  dsimp only
  cases hloc : st1.locals.getD place1.localIdx none with
  | none => exact h1
  | some value0 =>
    dsimp only
    obtain ⟨h2, hpr⟩ := ps_spv_loop ctx loc place1 place1.projection st1 0 place1 value0
    rcases hloop : spv_loop ctx loc place1 st1 0 place1 value0 place1.projection
      with ⟨st2, placeRef, r⟩
    rw [hloop] at h2 hpr
    dsimp only at hpr
    cases r with
    | none => exact ps_trans h1 h2
    | some value =>
      dsimp only
      cases htal : try_as_local ctx st2 value loc with
      | some newLocal =>
        dsimp only
        split
        · exact ps_trans h1 (ps_trans h2 (ps_insert_reused htal))
        · exact ps_trans h1 h2
      | none =>
        dsimp only
        split
        · rcases hpr with hpr | ⟨idx2, hidx⟩
          · subst hpr
            rename_i hcond
            rcases hcond with hcond | hcond
            · exact absurd rfl hcond
            · exact absurd hcond (Nat.lt_irrefl _)
          · rw [← h2.rev] at hidx
            exact ps_trans h1 (ps_trans h2 (ps_insert_reused hidx))
        · exact ps_trans h1 h2

theorem ps_simplify_operand (ctx : Ctx) (loc : Location) (st : VnState) (operand : Operand) :
    PhaseStep ctx loc st (simplify_operand ctx st operand loc).1 := by
  unfold simplify_operand
  cases operand with
  | constant c =>
    dsimp only
    have h := ps_insert_constant ctx loc st (ctx.normalize c.const_)
    rcases hic : insert_constant ctx st (ctx.normalize c.const_) with ⟨st1, r⟩
    rw [hic] at h
    exact h
  | copy place =>
    dsimp only
    have h := ps_simplify_place_value ctx loc st place
    rcases hs : simplify_place_value ctx st place loc with ⟨st1, place2, r⟩
    rw [hs] at h
    cases r with
    | none => exact h
    | some value =>
      dsimp only
      cases try_as_constant ctx st1 value <;> exact h
  | move place =>
    dsimp only
    have h := ps_simplify_place_value ctx loc st place
    rcases hs : simplify_place_value ctx st place loc with ⟨st1, place2, r⟩
    rw [hs] at h
    cases r with
    | none => exact h
    | some value =>
      dsimp only
      cases try_as_constant ctx st1 value <;> exact h

theorem ps_insert_scalar_pair {ctx : Ctx} {loc : Location} {st : VnState} {s : ScalarH}
    {t : TyH} :
    PhaseStep ctx loc st
      (match insert_scalar ctx st s t with | (st2, i) => (st2, some i)).1 := by
  have h := ps_insert_scalar ctx loc st s t
  rcases his : insert_scalar ctx st s t with ⟨stI, iI⟩
  rw [his] at h
  exact h

theorem ps_simplify_discriminant (ctx : Ctx) (loc : Location) (st : VnState) (v : VnIndex) :
    PhaseStep ctx loc st (simplify_discriminant ctx st v).1 := by
  unfold simplify_discriminant
  repeat' (first | split | dsimp only)
  all_goals
    first
      | exact ps_rfl ctx loc st
      | exact ps_insert_scalar_pair

theorem ps_simplify_agg_fields (ctx : Ctx) (loc : Location) :
    ∀ (ops : List Operand) (st : VnState),
    PhaseStep ctx loc st (simplify_agg_fields ctx loc st ops).1 := by
  intro ops
  induction ops with
  | nil => intro st; exact ps_rfl ctx loc st
  | cons op rest ih =>
    intro st
    unfold simplify_agg_fields
    dsimp only
    have h1 := ps_simplify_operand ctx loc st op
    rcases hso : simplify_operand ctx st op loc with ⟨st1, op2, r⟩
    rw [hso] at h1
    cases r with
    | some v =>
      dsimp only
      have h2 := ih st1
      rcases hrest : simplify_agg_fields ctx loc st1 rest with ⟨st2, rest2, vs⟩
      rw [hrest] at h2
      cases vs <;> exact ps_trans h1 h2
    | none =>
      dsimp only
      have hna := ps_new_anon ctx loc st1
      rcases hanon : new_anon ctx st1 with ⟨st1b, r2⟩
      rw [hanon] at hna
      cases r2 with
      | none => exact ps_trans h1 hna
      | some v =>
        dsimp only
        have h2 := ih st1b
        rcases hrest : simplify_agg_fields ctx loc st1b rest with ⟨st2, rest2, vs⟩
        rw [hrest] at h2
        cases vs <;> exact ps_trans h1 (ps_trans hna h2)

theorem ps_insert_pair3 {ctx : Ctx} {loc : Location} {st stM : VnState} {v : Value}
    {rv : Rvalue} (h1 : PhaseStep ctx loc st stM) (hv : stM.counter = none → MintFree ctx v) :
    PhaseStep ctx loc st
      (match VnState.insert ctx stM v with | (st2, i) => (st2, rv, some i)).1 := by
  have h2 := @ps_insert ctx loc stM v hv
  rcases hins : VnState.insert ctx stM v with ⟨stI, iI⟩
  rw [hins] at h2
  exact ps_trans h1 h2

theorem ps_insert_res {ctx : Ctx} {loc : Location} {st : VnState}
    (res : VnState × Rvalue) {v : Value}
    (h1 : PhaseStep ctx loc st res.1) (hv : res.1.counter = none → MintFree ctx v) :
    PhaseStep ctx loc st
      (match res with
       | (stM, rv2) =>
         match VnState.insert ctx stM v with | (st2, i) => (st2, rv2, some i)).1 := by
  rcases res with ⟨stM, rv2⟩
  exact ps_insert_pair3 h1 hv

theorem ps_simplify_agg_result (ctx : Ctx) (loc : Location) (st : VnState)
    (kind : AggregateKind) (fields2 : List Operand) (ty : AggregateTyV)
    (variantIndex : Nat) (idxs : List VnIndex) :
    PhaseStep ctx loc st (simplify_agg_result ctx st kind fields2 loc ty variantIndex idxs).1 := by
  unfold simplify_agg_result
  split
  · cases hh : idxs.head? with
    | none => exact ps_insert_pair3 (ps_rfl ctx loc st) (fun _ => by trivial)
    | some first =>
      dsimp only
      split
      · cases htc : try_as_constant ctx st first with
        | some c =>
          dsimp only
          first
            | exact ps_insert (fun _ => by trivial)
            | exact ps_insert_pair3 (ps_rfl ctx loc st) (fun _ => by trivial)
        | none =>
          dsimp only
          cases htal : try_as_local ctx st first loc with
          | some l =>
            dsimp only
            first
              | exact ps_trans (ps_insert_reused htal) (ps_insert (fun _ => by trivial))
              | exact ps_insert_pair3 (ps_insert_reused htal) (fun _ => by trivial)
          | none =>
            dsimp only
            first
              | exact ps_insert (fun _ => by trivial)
              | exact ps_insert_pair3 (ps_rfl ctx loc st) (fun _ => by trivial)
      · exact ps_insert_pair3 (ps_rfl ctx loc st) (fun _ => by trivial)
  · exact ps_insert_pair3 (ps_rfl ctx loc st) (fun _ => by trivial)

theorem ps_agg_after_fields (ctx : Ctx) (loc : Location) (st : VnState)
    (kind : AggregateKind) (fields : List Operand) (ty : AggregateTyV) (variantIndex : Nat) :
    PhaseStep ctx loc st
      (match simplify_agg_fields ctx loc st fields with
       | (st2, fields2, none) => (st2, Rvalue.aggregate kind fields2, none)
       | (st2, fields2, some idxs) =>
         simplify_agg_result ctx st2 kind fields2 loc ty variantIndex idxs).1 := by
  have h1 := ps_simplify_agg_fields ctx loc fields st
  rcases hf : simplify_agg_fields ctx loc st fields with ⟨st1, fields2, idxs?⟩
  rw [hf] at h1
  cases idxs? with
  | none => exact h1
  | some idxs =>
    dsimp only
    have h2 := ps_simplify_agg_result ctx loc st1 kind fields2 ty variantIndex idxs
    rcases hr : simplify_agg_result ctx st1 kind fields2 loc ty variantIndex idxs
      with ⟨st2, rv2, r⟩
    rw [hr] at h2
    exact ps_trans h1 h2

theorem ps_simplify_aggregate_rest (ctx : Ctx) (loc : Location) (st : VnState)
    (kind : AggregateKind) (fields : List Operand) :
    PhaseStep ctx loc st (simplify_aggregate_rest ctx st kind fields loc).1 := by
  unfold simplify_aggregate_rest
  cases kind <;> dsimp only
  case adt did variantIndex args userTy activeField =>
    cases activeField <;> dsimp only
    · exact ps_agg_after_fields ctx loc st _ fields _ _
    · exact ps_rfl ctx loc st
  all_goals exact ps_agg_after_fields ctx loc st _ fields _ _

theorem ps_simplify_aggregate (ctx : Ctx) (loc : Location) (st : VnState) (rvalue : Rvalue) :
    PhaseStep ctx loc st (simplify_aggregate ctx st rvalue loc).1 := by
  unfold simplify_aggregate
  cases rvalue <;> try exact ps_rfl ctx loc st
  case aggregate kind fields =>
    dsimp only
    split
    · split
      · have h := ps_insert_constant ctx loc st
          (ctx.zeroSized (ctx.rvalueTy (Rvalue.aggregate kind fields)))
        rcases hic : insert_constant ctx st
            (ctx.zeroSized (ctx.rvalueTy (Rvalue.aggregate kind fields))) with ⟨st1, r⟩
        rw [hic] at h
        exact h
      · exact ps_simplify_aggregate_rest ctx loc st kind fields
    · exact ps_simplify_aggregate_rest ctx loc st kind fields

theorem ps_new_anon_pair3 {ctx : Ctx} {loc : Location} {st : VnState} {rv : Rvalue} :
    PhaseStep ctx loc st (match new_anon ctx st with | (st2, r) => (st2, rv, r)).1 := by
  have h := ps_new_anon ctx loc st
  rcases hna : new_anon ctx st with ⟨stI, r⟩
  rw [hna] at h
  exact h

theorem ps_simplify_rvalue (ctx : Ctx) (loc : Location) (st : VnState) (rvalue : Rvalue) :
    PhaseStep ctx loc st (simplify_rvalue ctx st rvalue loc).1 := by
  unfold simplify_rvalue
  cases rvalue with
  | use operand =>
    dsimp only
    have h1 := ps_simplify_operand ctx loc st operand
    rcases hso : simplify_operand ctx st operand loc with ⟨st1, op2, r⟩
    rw [hso] at h1
    exact h1
  | copyForDeref place =>
    dsimp only
    have h1 := ps_simplify_operand ctx loc st (Operand.copy place)
    rcases hso : simplify_operand ctx st (Operand.copy place) loc with ⟨st1, op2, r⟩
    rw [hso] at h1
    exact h1
  | «repeat» op amount =>
    dsimp only
    have h1 := ps_simplify_operand ctx loc st op
    rcases hso : simplify_operand ctx st op loc with ⟨st1, op2, r⟩
    rw [hso] at h1
    cases r with
    | none => exact h1
    | some v =>
      dsimp only
      refine ps_trans h1 ?_
      first
        | exact ps_insert (fun _ => by trivial)
        | exact ps_insert_pair3 (ps_rfl ctx loc st1) (fun _ => by trivial)
  | nullaryOp op ty =>
    dsimp only
    first
      | exact ps_insert (fun _ => by trivial)
      | exact ps_insert_pair3 (ps_rfl ctx loc st) (fun _ => by trivial)
  | aggregate kind fields => exact ps_simplify_aggregate ctx loc st (.aggregate kind fields)
  | ref region bk place =>
    dsimp only
    have h1 := ps_simplify_place_projection ctx loc st place
    rcases hp : simplify_place_projection ctx st place loc with ⟨st1, place2⟩
    rw [hp] at h1
    dsimp only
    have h2 := ps_new_pointer ctx loc st1 place2 (.ref bk)
    rcases hnp : new_pointer ctx st1 place2 (.ref bk) with ⟨st2, r⟩
    rw [hnp] at h2
    exact ps_trans h1 h2
  | addressOf mutbl place =>
    dsimp only
    have h1 := ps_simplify_place_projection ctx loc st place
    rcases hp : simplify_place_projection ctx st place loc with ⟨st1, place2⟩
    rw [hp] at h1
    dsimp only
    have h2 := ps_new_pointer ctx loc st1 place2 (.address mutbl)
    rcases hnp : new_pointer ctx st1 place2 (.address mutbl) with ⟨st2, r⟩
    rw [hnp] at h2
    exact ps_trans h1 h2
  | len place =>
    dsimp only
    have h1 := ps_simplify_place_value ctx loc st place
    rcases hs : simplify_place_value ctx st place loc with ⟨st1, place2, r⟩
    rw [hs] at h1
    cases r with
    | none => exact h1
    | some v =>
      dsimp only
      refine ps_trans h1 ?_
      first
        | exact ps_insert (fun _ => by trivial)
        | exact ps_insert_pair3 (ps_rfl ctx loc st1) (fun _ => by trivial)
  | cast kind op toTy =>
    dsimp only
    have h1 := ps_simplify_operand ctx loc st op
    rcases hso : simplify_operand ctx st op loc with ⟨st1, op2, r⟩
    rw [hso] at h1
    cases r with
    | none => exact h1
    | some v =>
      dsimp only
      refine ps_trans h1 ?_
      cases kind <;> dsimp only
      case pointerCoercion pc =>
        cases pc <;> dsimp only
        all_goals
          first
            | exact ps_new_anon ctx loc st1
            | exact ps_new_anon_pair3
            | exact ps_insert (fun _ => by trivial)
            | exact ps_insert_pair3 (ps_rfl ctx loc st1) (fun _ => by trivial)
      all_goals
        first
          | exact ps_insert (fun _ => by trivial)
          | exact ps_insert_pair3 (ps_rfl ctx loc st1) (fun _ => by trivial)
  | binaryOp op lhs rhs =>
    dsimp only
    have h1 := ps_simplify_operand ctx loc st lhs
    rcases hso1 : simplify_operand ctx st lhs loc with ⟨st1, lhs2, r1⟩
    rw [hso1] at h1
    dsimp only
    have h2 := ps_simplify_operand ctx loc st1 rhs
    rcases hso2 : simplify_operand ctx st1 rhs loc with ⟨st2, rhs2, r2⟩
    rw [hso2] at h2
    cases r1 <;> cases r2 <;> dsimp only
    case some.some l r =>
      refine ps_trans h1 (ps_trans h2 ?_)
      first
        | exact ps_insert (fun _ => by trivial)
        | exact ps_insert_pair3 (ps_rfl ctx loc st2) (fun _ => by trivial)
    all_goals exact ps_trans h1 h2
  | checkedBinaryOp op lhs rhs =>
    dsimp only
    have h1 := ps_simplify_operand ctx loc st lhs
    rcases hso1 : simplify_operand ctx st lhs loc with ⟨st1, lhs2, r1⟩
    rw [hso1] at h1
    dsimp only
    have h2 := ps_simplify_operand ctx loc st1 rhs
    rcases hso2 : simplify_operand ctx st1 rhs loc with ⟨st2, rhs2, r2⟩
    rw [hso2] at h2
    cases r1 <;> cases r2 <;> dsimp only
    case some.some l r =>
      refine ps_trans h1 (ps_trans h2 ?_)
      first
        | exact ps_insert (fun _ => by trivial)
        | exact ps_insert_pair3 (ps_rfl ctx loc st2) (fun _ => by trivial)
    all_goals exact ps_trans h1 h2
  | unaryOp op arg =>
    dsimp only
    have h1 := ps_simplify_operand ctx loc st arg
    rcases hso : simplify_operand ctx st arg loc with ⟨st1, arg2, r⟩
    rw [hso] at h1
    cases r with
    | none => exact h1
    | some v =>
      dsimp only
      refine ps_trans h1 ?_
      first
        | exact ps_insert (fun _ => by trivial)
        | exact ps_insert_pair3 (ps_rfl ctx loc st1) (fun _ => by trivial)
  | discriminant place =>
    dsimp only
    have h1 := ps_simplify_place_value ctx loc st place
    rcases hs : simplify_place_value ctx st place loc with ⟨st1, place2, r⟩
    rw [hs] at h1
    cases r with
    | none => exact h1
    | some v =>
      dsimp only
      have h2 := ps_simplify_discriminant ctx loc st1 v
      rcases hd : simplify_discriminant ctx st1 v with ⟨st2, d?⟩
      rw [hd] at h2
      cases d? with
      | some d => exact ps_trans h1 h2
      | none =>
        dsimp only
        refine ps_trans h1 (ps_trans h2 ?_)
        first
          | exact ps_insert (fun _ => by trivial)
          | exact ps_insert_pair3 (ps_rfl ctx loc st2) (fun _ => by trivial)
  | threadLocalRef did => exact ps_rfl ctx loc st
  | shallowInitBox op ty => exact ps_rfl ctx loc st

theorem ps_visit_operand (ctx : Ctx) (loc : Location) (st : VnState) (op : Operand) :
    PhaseStep ctx loc st (visit_operand ctx st op loc).1 := by
  unfold visit_operand
  have h := ps_simplify_operand ctx loc st op
  rcases hso : simplify_operand ctx st op loc with ⟨st1, op2, r⟩
  rw [hso] at h
  exact h

theorem ps_visit_place (ctx : Ctx) (loc : Location) (st : VnState) (place : Place) :
    PhaseStep ctx loc st (visit_place ctx st place loc).1 :=
  ps_simplify_place_projection ctx loc st place

theorem ps_visit_operands (ctx : Ctx) (loc : Location) :
    ∀ (ops : List Operand) (st : VnState),
    PhaseStep ctx loc st (visit_operands ctx loc st ops).1 := by
  intro ops
  induction ops with
  | nil => intro st; exact ps_rfl ctx loc st
  | cons op rest ih =>
    intro st
    unfold visit_operands
    dsimp only
    have h1 := ps_visit_operand ctx loc st op
    rcases hv : visit_operand ctx st op loc with ⟨st1, op2⟩
    rw [hv] at h1
    have h2 := ih st1
    rcases hr : visit_operands ctx loc st1 rest with ⟨st2, rest2⟩
    rw [hr] at h2
    exact ps_trans h1 h2

theorem ps_super_rvalue (ctx : Ctx) (loc : Location) (st : VnState) (rvalue : Rvalue) :
    PhaseStep ctx loc st (super_rvalue ctx st rvalue loc).1 := by
  unfold super_rvalue
  cases rvalue with
  | use op =>
    dsimp only
    have h := ps_visit_operand ctx loc st op
    rcases hv : visit_operand ctx st op loc with ⟨st1, op2⟩
    rw [hv] at h
    exact h
  | «repeat» op c =>
    dsimp only
    have h := ps_visit_operand ctx loc st op
    rcases hv : visit_operand ctx st op loc with ⟨st1, op2⟩
    rw [hv] at h
    exact h
  | ref region bk place =>
    dsimp only
    have h := ps_visit_place ctx loc st place
    rcases hv : visit_place ctx st place loc with ⟨st1, place2⟩
    rw [hv] at h
    exact h
  | addressOf m place =>
    dsimp only
    have h := ps_visit_place ctx loc st place
    rcases hv : visit_place ctx st place loc with ⟨st1, place2⟩
    rw [hv] at h
    exact h
  | len place =>
    dsimp only
    have h := ps_visit_place ctx loc st place
    rcases hv : visit_place ctx st place loc with ⟨st1, place2⟩
    rw [hv] at h
    exact h
  | cast k op t =>
    dsimp only
    have h := ps_visit_operand ctx loc st op
    rcases hv : visit_operand ctx st op loc with ⟨st1, op2⟩
    rw [hv] at h
    exact h
  | binaryOp o lhs rhs =>
    dsimp only
    have h1 := ps_visit_operand ctx loc st lhs
    rcases hv1 : visit_operand ctx st lhs loc with ⟨st1, lhs2⟩
    rw [hv1] at h1
    have h2 := ps_visit_operand ctx loc st1 rhs
    rcases hv2 : visit_operand ctx st1 rhs loc with ⟨st2, rhs2⟩
    rw [hv2] at h2
    exact ps_trans h1 h2
  | checkedBinaryOp o lhs rhs =>
    dsimp only
    have h1 := ps_visit_operand ctx loc st lhs
    rcases hv1 : visit_operand ctx st lhs loc with ⟨st1, lhs2⟩
    rw [hv1] at h1
    have h2 := ps_visit_operand ctx loc st1 rhs
    rcases hv2 : visit_operand ctx st1 rhs loc with ⟨st2, rhs2⟩
    rw [hv2] at h2
    exact ps_trans h1 h2
  | nullaryOp o t => exact ps_rfl ctx loc st
  | unaryOp o a =>
    dsimp only
    have h := ps_visit_operand ctx loc st a
    rcases hv : visit_operand ctx st a loc with ⟨st1, a2⟩
    rw [hv] at h
    exact h
  | discriminant place =>
    dsimp only
    have h := ps_visit_place ctx loc st place
    rcases hv : visit_place ctx st place loc with ⟨st1, place2⟩
    rw [hv] at h
    exact h
  | aggregate k fields =>
    dsimp only
    have h := ps_visit_operands ctx loc fields st
    rcases hv : visit_operands ctx loc st fields with ⟨st1, fields2⟩
    rw [hv] at h
    exact h
  | threadLocalRef d => exact ps_rfl ctx loc st
  | shallowInitBox op t =>
    dsimp only
    have h := ps_visit_operand ctx loc st op
    rcases hv : visit_operand ctx st op loc with ⟨st1, op2⟩
    rw [hv] at h
    exact h
  | copyForDeref place =>
    dsimp only
    have h := ps_visit_place ctx loc st place
    rcases hv : visit_place ctx st place loc with ⟨st1, place2⟩
    rw [hv] at h
    exact h

theorem ps_super_statement (ctx : Ctx) (loc : Location) (st : VnState) (stmt : Statement) :
    PhaseStep ctx loc st (super_statement ctx st stmt loc).1 := by
  unfold super_statement
  cases stmt with
  | assign place rvalue =>
    dsimp only
    have h1 := ps_visit_place ctx loc st place
    rcases hv : visit_place ctx st place loc with ⟨st1, place2⟩
    rw [hv] at h1
    have h2 := ps_super_rvalue ctx loc st1 rvalue
    rcases hr : super_rvalue ctx st1 rvalue loc with ⟨st2, rvalue2⟩
    rw [hr] at h2
    exact ps_trans h1 h2
  | storageLive l => exact ps_rfl ctx loc st
  | storageDead l => exact ps_rfl ctx loc st
  | nop => exact ps_rfl ctx loc st
  | otherStmt t => exact ps_rfl ctx loc st

theorem ps_visit_statement (ctx : Ctx) (loc : Location) (st : VnState) (stmt : Statement) :
    PhaseStep ctx loc st (visit_statement ctx st stmt loc).1 := by
  unfold visit_statement
  cases stmt with
  | storageLive l => exact ps_super_statement ctx loc st (.storageLive l)
  | storageDead l => exact ps_super_statement ctx loc st (.storageDead l)
  | nop => exact ps_super_statement ctx loc st .nop
  | otherStmt t => exact ps_super_statement ctx loc st (.otherStmt t)
  | assign lhs rvalue =>
    dsimp only
    split
    · exact ps_super_statement ctx loc st (.assign lhs rvalue)
    · have h1 := ps_simplify_rvalue ctx loc st rvalue
      rcases hs : simplify_rvalue ctx st rvalue loc with ⟨st1, rvalue2, v?⟩
      rw [hs] at h1
      cases v? with
      | none => exact h1
      | some value =>
        dsimp only
        cases htc : try_as_constant ctx st1 value with
        | some c => exact h1
        | none =>
          dsimp only
          cases htal : try_as_local ctx st1 value loc with
          | some l =>
            dsimp only
            split
            · exact ps_trans h1 (ps_insert_reused htal)
            · exact h1
          | none => exact h1

theorem pass_visit_statements (ctx : Ctx) (bb : Nat) :
    ∀ (stmts : List Statement) (st : VnState) (i : Nat),
    PassStep ctx st (visit_statements ctx bb st i stmts).1 := by
  intro stmts
  induction stmts with
  | nil => intro st i; exact pass_rfl ctx st
  | cons s rest ih =>
    intro st i
    unfold visit_statements
    dsimp only
    have h1 := pass_of_ps (ps_visit_statement ctx { block := bb, statementIndex := i } st s)
    rcases hv : visit_statement ctx st s { block := bb, statementIndex := i } with ⟨st1, s2⟩
    rw [hv] at h1
    have h2 := ih st1 (i + 1)
    rcases hr : visit_statements ctx bb st1 (i + 1) rest with ⟨st2, rest2⟩
    rw [hr] at h2
    exact pass_trans h1 h2

theorem pass_phase2_step (ctx : Ctx) (bs : Body × VnState) (bb : Nat) :
    PassStep ctx bs.2 (phase2_step ctx bs bb).2 := by
  rcases bs with ⟨body, st⟩
  unfold phase2_step
  dsimp only
  cases hb : body.blocks.get? bb with
  | none => exact pass_rfl ctx st
  | some stmts =>
    dsimp only
    have h := pass_visit_statements ctx bb stmts st 0
    rcases hv : visit_statements ctx bb st 0 stmts with ⟨st2, stmts2⟩
    rw [hv] at h
    exact h

theorem pass_phase2 (ctx : Ctx) :
    ∀ (rpo : List Nat) (bs : Body × VnState), PassStep ctx bs.2 (phase2 ctx rpo bs).2 := by
  intro rpo
  induction rpo with
  | nil => intro bs; exact pass_rfl ctx bs.2
  | cons bb rest ih =>
    intro bs
    unfold phase2
    rw [List.foldl_cons]
    have h1 := pass_phase2_step ctx bs bb
    have h2 := ih (phase2_step ctx bs bb)
    unfold phase2 at h2
    exact pass_trans h1 h2

/-- **C1.** Dominance of substitutions: every local the pass newly records
in `reused_locals` while rewriting a statement — and every `Use(Copy(_))`
or place/index substitution is recorded there at its insertion site — was
returned by `try_as_local`, which scans `rev_locals` for a local whose
unique defining assignment strictly dominates the rewritten location; so
its assignment strictly dominates that location. -/
theorem c1_substitution_dominates (ctx : Ctx) (st : VnState) (stmt : Statement)
    (loc : Location) (l : Local)
    (hl : l ∈ ((visit_statement ctx st stmt loc).1).reusedLocals)
    (hnew : l ∉ st.reusedLocals) :
    ctx.assignmentDominates l loc = true := by
  rcases (ps_visit_statement ctx loc st stmt).reused l hl with hmem | ⟨index, hidx⟩
  · exact absurd hmem hnew
  · unfold try_as_local_rev at hidx
    cases hlr : lookup_rev st.revLocals index with
    | none =>
      rw [hlr] at hidx
      cases hidx
    | some others =>
      rw [hlr] at hidx
      dsimp only at hidx
      have hfind := List.find?_some hidx
      exact hfind

/-- Witness for C1: a concrete statement `_1 = _2` where the value of `_2`
is also held by the dominating SSA local `_3`; the pass records `_3` as
reused, and its assignment dominates the location. -/
theorem c1_substitution_dominates_witness :
    ctx_w1.assignmentDominates 3 loc_w1 = true :=
  c1_substitution_dominates ctx_w1 st_w1 stmt_w1 loc_w1 3 (by decide) (by decide)

theorem tag_bound_address_not_mem {ctx : Ctx} {n m : Nat} {st : VnState} {place : Place}
    {kind : AddressKind} (hb : tag_bound ctx n st = true) (hm : n ≤ m) :
    Value.address place kind m ∉ st.values := by
  intro hmem
  unfold tag_bound at hb
  have h := List.all_eq_true.mp hb _ hmem
  have h2 : m < n := of_decide_eq_true h
  exact absurd (Nat.lt_of_le_of_lt hm h2) (Nat.lt_irrefl n)

theorem tag_bound_constant_not_mem {ctx : Ctx} {n m : Nat} {st : VnState} {c : ConstH}
    (hdet : ctx.isDeterministic c = false) (hb : tag_bound ctx n st = true) (hm : n ≤ m) :
    Value.constant c m ∉ st.values := by
  intro hmem
  unfold tag_bound at hb
  have h := List.all_eq_true.mp hb _ hmem
  have h2 : (ctx.isDeterministic c || decide (m < n)) = true := h
  rw [hdet, Bool.false_or] at h2
  have h3 : m < n := of_decide_eq_true h2
  exact absurd (Nat.lt_of_le_of_lt hm h3) (Nat.lt_irrefl n)

theorem insert_fresh_spec {ctx : Ctx} {st : VnState} {v : Value} (h : v ∉ st.values) :
    (VnState.insert ctx st v).1.values = st.values ++ [v] ∧
    (VnState.insert ctx st v).2 = st.values.length ∧
    (VnState.insert ctx st v).1.counter = st.counter ∧
    (VnState.insert ctx st v).1.revLocals = st.revLocals := by
  unfold VnState.insert
  rw [(find_index_none_iff st.values v).mpr h]
  exact ⟨rfl, rfl, rfl, rfl⟩

theorem new_pointer_eq (ctx : Ctx) {st : VnState} {n : Nat} (hn : st.counter = some n)
    (place : Place) (kind : AddressKind) :
    new_pointer ctx st place kind =
      ((VnState.insert ctx { st with counter := some (n + 1) } (Value.address place kind n)).1,
       some (VnState.insert ctx { st with counter := some (n + 1) }
         (Value.address place kind n)).2) := by
  unfold new_pointer
  rw [hn]

/-- **C2.** Address uniqueness: with the counter invariant (`tag_bound`),
two successive `new_pointer` mints — even for lexically identical places
and kinds — yield distinct `VnIndex`es, and each is distinct from the
index of every previously interned `Address` value: distinct address
rvalues are never merged. -/
theorem c2_address_uniqueness (ctx : Ctx) (st : VnState) (n : Nat) (p1 : Place)
    (k1 : AddressKind) (p2 : Place) (k2 : AddressKind)
    (hn : st.counter = some n) (hb : tag_bound ctx n st = true) :
    ∃ st1 i1 st2 i2,
      new_pointer ctx st p1 k1 = (st1, some i1) ∧
      new_pointer ctx st1 p2 k2 = (st2, some i2) ∧
      i1 ≠ i2 ∧
      ∀ j pl kd pr, st.values.get? j = some (Value.address pl kd pr) → j ≠ i1 ∧ j ≠ i2 := by
  have hv1 : Value.address p1 k1 n ∉ st.values := tag_bound_address_not_mem hb (Nat.le_refl n)
  have hv1A : Value.address p1 k1 n ∉
      ({ st with counter := some (n + 1) } : VnState).values := hv1
  obtain ⟨hvals1, hidx1, hctr1, _⟩ := @insert_fresh_spec ctx
    { st with counter := some (n + 1) } (Value.address p1 k1 n) hv1A
  rcases hi1 : VnState.insert ctx { st with counter := some (n + 1) } (Value.address p1 k1 n)
    with ⟨st1, i1⟩
  rw [hi1] at hvals1 hidx1 hctr1
  dsimp only at hvals1 hidx1 hctr1
  have hnp1 := new_pointer_eq ctx hn p1 k1
  rw [hi1] at hnp1
  -- second mint
  have hctr1' : st1.counter = some (n + 1) := hctr1
  have hv2 : Value.address p2 k2 (n + 1) ∉ st1.values := by
    rw [hvals1]
    intro hmem
    rcases List.mem_append.mp hmem with hmem | hmem
    · exact tag_bound_address_not_mem hb (Nat.le_succ n) hmem
    · rcases List.mem_singleton.mp hmem with h
      injection h with hpl hkd hpr
      exact absurd hpr (Nat.succ_ne_self n)
  have hv2A : Value.address p2 k2 (n + 1) ∉
      ({ st1 with counter := some (n + 1 + 1) } : VnState).values := hv2
  obtain ⟨hvals2, hidx2, _, _⟩ := @insert_fresh_spec ctx
    { st1 with counter := some (n + 1 + 1) } (Value.address p2 k2 (n + 1)) hv2A
  rcases hi2 : VnState.insert ctx { st1 with counter := some (n + 1 + 1) }
      (Value.address p2 k2 (n + 1)) with ⟨st2, i2⟩
  rw [hi2] at hvals2 hidx2
  dsimp only at hvals2 hidx2
  have hnp2 := new_pointer_eq ctx hctr1' p2 k2
  rw [hi2] at hnp2
  have hlen1 : i1 = st.values.length := hidx1
  have hlen2 : i2 = st.values.length + 1 := by
    rw [hidx2, hvals1]
    simp
  refine ⟨st1, i1, st2, i2, hnp1, hnp2, ?_, ?_⟩
  · rw [hlen1, hlen2]
    exact Nat.ne_of_lt (Nat.lt_succ_self _)
  · intro j pl kd pr hj
    have hjlt : j < st.values.length := by
      by_contra hge
      rw [List.get?_eq_none.mpr (Nat.le_of_not_lt hge)] at hj
      cases hj
    constructor
    · rw [hlen1]
      exact Nat.ne_of_lt hjlt
    · rw [hlen2]
      exact Nat.ne_of_lt (Nat.lt_succ_of_lt hjlt)

/-- Witness for C2 at a concrete input: the empty state with counter 0. -/
theorem c2_address_uniqueness_witness :
    ∃ st1 i1 st2 i2,
      new_pointer ctx0 st_empty { localIdx := 0, projection := [] } (.address .not) =
        (st1, some i1) ∧
      new_pointer ctx0 st1 { localIdx := 0, projection := [] } (.address .not) =
        (st2, some i2) ∧
      i1 ≠ i2 ∧
      ∀ j pl kd pr, st_empty.values.get? j = some (Value.address pl kd pr) →
        j ≠ i1 ∧ j ≠ i2 :=
  c2_address_uniqueness ctx0 st_empty 0 { localIdx := 0, projection := [] } (.address .not)
    { localIdx := 0, projection := [] } (.address .not) rfl (by decide)

theorem insert_idem {ctx : Ctx} {st st2 : VnState} {v : Value} {i : Nat}
    (h : VnState.insert ctx st v = (st2, i)) : VnState.insert ctx st2 v = (st2, i) := by
  unfold VnState.insert at h ⊢
  cases hfi : find_index st.values v with
  | some j =>
    rw [hfi] at h
    injection h with h1 h2
    subst h1
    subst h2
    rw [hfi]
  | none =>
    rw [hfi] at h
    injection h with h1 h2
    subst h2
    have hni : v ∉ st.values := (find_index_none_iff _ _).mp hfi
    have hfi2 : find_index st2.values v = some st.values.length := by
      rw [← h1]
      exact find_index_append_self hni
    rw [hfi2]

theorem insert_constant_det_eq (ctx : Ctx) (st : VnState) {c : ConstH}
    (hdet : ctx.isDeterministic c = true) :
    insert_constant ctx st c =
      ((VnState.insert ctx st (Value.constant c 0)).1,
       some (VnState.insert ctx st (Value.constant c 0)).2) := by
  unfold insert_constant
  rw [if_pos hdet]

theorem insert_constant_nondet_eq (ctx : Ctx) {st : VnState} {c : ConstH} {n : Nat}
    (hdet : ctx.isDeterministic c = false) (hn : st.counter = some n) :
    insert_constant ctx st c =
      ((VnState.insert ctx { st with counter := some (n + 1) } (Value.constant c n)).1,
       some (VnState.insert ctx { st with counter := some (n + 1) }
         (Value.constant c n)).2) := by
  unfold insert_constant
  rw [if_neg (by rw [hdet]; exact Bool.false_ne_true), hn]

/-- **C3.** `insert_constant`: a deterministic constant is interned with
disambiguator 0, so a second mention of the same constant returns the same
`VnIndex`; a non-deterministic constant gets the fresh counter value as
disambiguator, so (under the counter invariant) every mention gets a
`VnIndex` distinct from every other mention's; and the result is `none`
exactly when minting is disabled and the constant is non-deterministic. -/
theorem c3_insert_constant_disambiguator (ctx : Ctx) (st : VnState) (c : ConstH) (n : Nat)
    (hn : st.counter = some n) (hb : tag_bound ctx n st = true) :
    (ctx.isDeterministic c = true →
      ∃ st1 i, insert_constant ctx st c = (st1, some i) ∧
        st1.values.get? i = some (.constant c 0) ∧
        insert_constant ctx st1 c = (st1, some i)) ∧
    (ctx.isDeterministic c = false →
      ∃ st1 i1 st2 i2, insert_constant ctx st c = (st1, some i1) ∧
        st1.values.get? i1 = some (.constant c n) ∧
        insert_constant ctx st1 c = (st2, some i2) ∧ i2 ≠ i1 ∧
        ∀ j d, st.values.get? j = some (.constant c d) → j ≠ i1 ∧ j ≠ i2) ∧
    (∀ st3 : VnState, (insert_constant ctx st3 c).2 = none ↔
      st3.counter = none ∧ ctx.isDeterministic c = false) := by
  refine ⟨?_, ?_, ?_⟩
  · intro hdet
    have hins := insert_constant_det_eq ctx st hdet
    rcases hi : VnState.insert ctx st (Value.constant c 0) with ⟨st1, i⟩
    rw [hi] at hins
    refine ⟨st1, i, hins, ?_, ?_⟩
    · have hget := insert_self_get ctx st (Value.constant c 0)
      rw [hi] at hget
      exact hget
    · have hid := insert_idem hi
      have hins2 := insert_constant_det_eq ctx st1 hdet
      rw [hid] at hins2
      exact hins2
  · intro hdet
    have hv1 : Value.constant c n ∉ st.values :=
      tag_bound_constant_not_mem hdet hb (Nat.le_refl n)
    have hv1A : Value.constant c n ∉
        ({ st with counter := some (n + 1) } : VnState).values := hv1
    obtain ⟨hvals1, hidx1, hctr1, _⟩ := @insert_fresh_spec ctx
      { st with counter := some (n + 1) } (Value.constant c n) hv1A
    rcases hi1 : VnState.insert ctx { st with counter := some (n + 1) } (Value.constant c n)
      with ⟨st1, i1⟩
    rw [hi1] at hvals1 hidx1 hctr1
    dsimp only at hvals1 hidx1 hctr1
    have hnp1 := insert_constant_nondet_eq ctx hdet hn
    rw [hi1] at hnp1
    have hctr1' : st1.counter = some (n + 1) := hctr1
    have hv2 : Value.constant c (n + 1) ∉ st1.values := by
      rw [hvals1]
      intro hmem
      rcases List.mem_append.mp hmem with hmem | hmem
      · exact tag_bound_constant_not_mem hdet hb (Nat.le_succ n) hmem
      · rcases List.mem_singleton.mp hmem with h
        injection h with hc hd
        exact absurd hd (Nat.succ_ne_self n)
    have hv2A : Value.constant c (n + 1) ∉
        ({ st1 with counter := some (n + 1 + 1) } : VnState).values := hv2
    obtain ⟨hvals2, hidx2, _, _⟩ := @insert_fresh_spec ctx
      { st1 with counter := some (n + 1 + 1) } (Value.constant c (n + 1)) hv2A
    rcases hi2 : VnState.insert ctx { st1 with counter := some (n + 1 + 1) }
        (Value.constant c (n + 1)) with ⟨st2, i2⟩
    rw [hi2] at hvals2 hidx2
    dsimp only at hvals2 hidx2
    have hnp2 := insert_constant_nondet_eq ctx hdet hctr1'
    rw [hi2] at hnp2
    have hget1 : st1.values.get? i1 = some (Value.constant c n) := by
      have hget := insert_self_get ctx { st with counter := some (n + 1) } (Value.constant c n)
      rw [hi1] at hget
      exact hget
    have hlen2 : i2 = st.values.length + 1 := by
      rw [hidx2, hvals1]
      simp
    refine ⟨st1, i1, st2, i2, hnp1, hget1, hnp2, ?_, ?_⟩
    · rw [hidx1, hlen2]
      exact Nat.ne_of_gt (Nat.lt_succ_self _)
    · intro j d hj
      have hjlt : j < st.values.length := by
        by_contra hge
        rw [List.get?_eq_none.mpr (Nat.le_of_not_lt hge)] at hj
        cases hj
      constructor
      · rw [hidx1]
        exact Nat.ne_of_lt hjlt
      · rw [hlen2]
        exact Nat.ne_of_lt (Nat.lt_succ_of_lt hjlt)
  · intro st3
    by_cases hdet : ctx.isDeterministic c
    · have hins := insert_constant_det_eq ctx st3 hdet
      rcases hi : VnState.insert ctx st3 (Value.constant c 0) with ⟨stA, iA⟩
      rw [hi] at hins
      rw [hins]
      constructor
      · intro h; cases h
      · rintro ⟨_, hfalse⟩
        rw [hdet] at hfalse
        cases hfalse
    · have hdet' : ctx.isDeterministic c = false := by
        revert hdet
        cases ctx.isDeterministic c <;> simp
      cases hc3 : st3.counter with
      | none =>
        have hins : insert_constant ctx st3 c = (st3, none) := by
          unfold insert_constant
          rw [if_neg (by rw [hdet']; exact Bool.false_ne_true), hc3]
        rw [hins]
        constructor
        · intro _; exact ⟨rfl, hdet'⟩
        · intro _; rfl
      | some k =>
        have hins := insert_constant_nondet_eq ctx hdet' hc3
        rcases hi : VnState.insert ctx { st3 with counter := some (k + 1) }
            (Value.constant c k) with ⟨stA, iA⟩
        rw [hi] at hins
        rw [hins]
        constructor
        · intro h; cases h
        · rintro ⟨hnone, _⟩
          cases hnone

/-- Witness for C3 at a concrete input: the empty state, counter 0, and a
constant the oracle reports deterministic. -/
theorem c3_insert_constant_disambiguator_witness :
    (ctx0.isDeterministic 7 = true →
      ∃ st1 i, insert_constant ctx0 st_empty 7 = (st1, some i) ∧
        st1.values.get? i = some (.constant 7 0) ∧
        insert_constant ctx0 st1 7 = (st1, some i)) ∧
    (ctx0.isDeterministic 7 = false →
      ∃ st1 i1 st2 i2, insert_constant ctx0 st_empty 7 = (st1, some i1) ∧
        st1.values.get? i1 = some (.constant 7 0) ∧
        insert_constant ctx0 st1 7 = (st2, some i2) ∧ i2 ≠ i1 ∧
        ∀ j d, st_empty.values.get? j = some (.constant 7 d) → j ≠ i1 ∧ j ≠ i2) ∧
    (∀ st3 : VnState, (insert_constant ctx0 st3 7).2 = none ↔
      st3.counter = none ∧ ctx0.isDeterministic 7 = false) :=
  c3_insert_constant_disambiguator ctx0 st_empty 7 0 rfl (by decide)

/-- **C4.** The freeze-deref rule: `project` produces a value index for a
`Deref` step exactly when the base place's type is an immutable reference
(`ref_mutability = Not`) whose pointee type is freeze; in every other case
it returns no index. -/
theorem c4_deref_freeze (ctx : Ctx) (st : VnState) (place : Place) (value : VnIndex) :
    ((project ctx st place value .deref).2).isSome = true ↔
      (ctx.refMutability (ctx.placeTy place) = some .not ∧
       ∃ pointee, ctx.builtinDeref (ctx.placeTy place) = some pointee ∧
         ctx.isFreeze pointee = true) := by
  unfold project
  dsimp only
  by_cases hm : ctx.refMutability (ctx.placeTy place) = some .not
  · rw [if_pos hm]
    cases hd : ctx.builtinDeref (ctx.placeTy place) with
    | none =>
      dsimp only
      constructor
      · intro h; exact absurd h (by decide)
      · rintro ⟨_, pointee, hp, _⟩
        cases hp
    | some pointee =>
      dsimp only
      by_cases hf : ctx.isFreeze pointee
      · rw [if_pos hf]
        rcases hi : VnState.insert ctx st (Value.projection value .deref) with ⟨st1, i⟩
        dsimp only
        constructor
        · intro _
          exact ⟨hm, pointee, rfl, hf⟩
        · intro _
          rfl
      · rw [if_neg hf]
        dsimp only
        constructor
        · intro h; exact absurd h (by decide)
        · rintro ⟨_, pointee2, hp2, hf2⟩
          injection hp2 with hp2
          subst hp2
          exact absurd hf2 hf
  · rw [if_neg hm]
    dsimp only
    constructor
    · intro h; exact absurd h (by decide)
    · rintro ⟨hm2, _⟩
      exact absurd hm2 hm

/-- **C5.** The empty-aggregate rule: under the (type-system) fact that an
empty aggregate of a kind passing the code's test is zero-sized, the
code's condition coincides with the specification's wording (zero-sized
type, not an enum — every constructible enum is non-empty — and not a
coroutine); when it holds the empty aggregate is folded to exactly
`insert_constant (Const::zero_sized ty)`, and when it fails the produced
value (if any) is an `Aggregate`, not a constant. -/
theorem c5_empty_aggregate (ctx : Ctx) (st : VnState) (kind : AggregateKind) (loc : Location)
    (hz : empty_agg_is_zst ctx kind = true →
      ctx.tyIsZst (ctx.rvalueTy (.aggregate kind [])) = true) :
    (empty_agg_is_zst ctx kind = spec_empty_agg_foldable ctx kind) ∧
    (empty_agg_is_zst ctx kind = true →
      simplify_aggregate ctx st (.aggregate kind []) loc =
        ((insert_constant ctx st (ctx.zeroSized (ctx.rvalueTy (.aggregate kind [])))).1,
         .aggregate kind [],
         (insert_constant ctx st (ctx.zeroSized (ctx.rvalueTy (.aggregate kind [])))).2)) ∧
    (empty_agg_is_zst ctx kind = false →
      ∀ st2 rv2 i, simplify_aggregate ctx st (.aggregate kind []) loc = (st2, rv2, some i) →
        ∃ aty var fl, st2.values.get? i = some (.aggregate aty var fl)) := by
  refine ⟨?_, ?_, ?_⟩
  · cases kind with
    | array e => simp [empty_agg_is_zst, spec_empty_agg_foldable, hz rfl]
    | tuple => simp [empty_agg_is_zst, spec_empty_agg_foldable, hz rfl]
    | closure did args => simp [empty_agg_is_zst, spec_empty_agg_foldable, hz rfl]
    | coroutine did args x => simp [empty_agg_is_zst, spec_empty_agg_foldable]
    | adt did vI args uT aF =>
      by_cases he : ctx.defKindIsEnum did
      · simp [empty_agg_is_zst, spec_empty_agg_foldable, he]
      · have he' : ctx.defKindIsEnum did = false := by
          revert he; cases ctx.defKindIsEnum did <;> simp
        have hzt := hz (by simp [empty_agg_is_zst, he'])
        simp [empty_agg_is_zst, spec_empty_agg_foldable, he', hzt]
  · intro hzst
    unfold simplify_aggregate
    dsimp only
    rw [if_pos (show ([] : List Operand).isEmpty = true from rfl), if_pos hzst]
  · intro hfalse st2 rv2 i heq
    cases kind with
    | array e => rw [empty_agg_is_zst] at hfalse; cases hfalse
    | tuple => rw [empty_agg_is_zst] at hfalse; cases hfalse
    | closure did args => rw [empty_agg_is_zst] at hfalse; cases hfalse
    | coroutine did args x =>
      simp only [simplify_aggregate, simplify_aggregate_rest, simplify_agg_fields,
        simplify_agg_result, hfalse] at heq
      try dsimp only at heq
      rcases hins : VnState.insert ctx st (Value.aggregate (.def_ did args) 0 []) with ⟨stI, iI⟩
      rw [hins] at heq
      try dsimp only at heq
      injection heq with h1 h2
      injection h2 with h2 h3
      injection h3 with h3
      subst h1
      subst h3
      have hget := insert_self_get ctx st (Value.aggregate (.def_ did args) 0 [])
      rw [hins] at hget
      exact ⟨.def_ did args, 0, [], hget⟩
    | adt did vI args uT aF =>
      cases aF with
      | some f =>
        simp only [simplify_aggregate, simplify_aggregate_rest, hfalse] at heq
        try dsimp only at heq
        injection heq with h1 h2
        injection h2 with h2 h3
        cases h3
      | none =>
        simp only [simplify_aggregate, simplify_aggregate_rest, simplify_agg_fields,
          simplify_agg_result, hfalse] at heq
        try dsimp only at heq
        rcases hins : VnState.insert ctx st (Value.aggregate (.def_ did args) vI [])
          with ⟨stI, iI⟩
        rw [hins] at heq
        try dsimp only at heq
        injection heq with h1 h2
        injection h2 with h2 h3
        injection h3 with h3
        subst h1
        subst h3
        have hget := insert_self_get ctx st (Value.aggregate (.def_ did args) vI [])
        rw [hins] at hget
        exact ⟨.def_ did args, vI, [], hget⟩

/-- Witness for C5 at a concrete input: the empty tuple aggregate with the
default oracle (every type zero-sized). -/
theorem c5_empty_aggregate_witness :
    (empty_agg_is_zst ctx0 .tuple = spec_empty_agg_foldable ctx0 .tuple) ∧
    (empty_agg_is_zst ctx0 .tuple = true →
      simplify_aggregate ctx0 st_empty (.aggregate .tuple []) loc_w1 =
        ((insert_constant ctx0 st_empty
            (ctx0.zeroSized (ctx0.rvalueTy (.aggregate .tuple [])))).1,
         .aggregate .tuple [],
         (insert_constant ctx0 st_empty
            (ctx0.zeroSized (ctx0.rvalueTy (.aggregate .tuple [])))).2)) ∧
    (empty_agg_is_zst ctx0 .tuple = false →
      ∀ st2 rv2 i,
        simplify_aggregate ctx0 st_empty (.aggregate .tuple []) loc_w1 = (st2, rv2, some i) →
        ∃ aty var fl, st2.values.get? i = some (.aggregate aty var fl)) :=
  c5_empty_aggregate ctx0 st_empty .tuple loc_w1 (fun _ => rfl)

/-- **C6 counterexample.** The claim says a `Transmute` cast evaluates
successfully only when both sides have scalar or scalar-pair ABI.  At this
concrete input the evaluated operand is a memory place (not an immediate),
both ABIs are non-scalar aggregates, and `eval_to_const` still succeeds:
the ABI restriction in the source guards only immediates. -/
theorem c6_counterexample :
    eval_to_const ctx_c6 st_c6 1 = some 77 ∧
    get_value st_c6 1 = .cast .transmute 0 100 200 ∧
    ctx_c6.layoutOf 200 = some 20 ∧
    st_c6.evaluated.getD 0 none = some 5 ∧
    ctx_c6.asMplaceOrImmIsRight 5 = false ∧
    ctx_c6.layoutAbi (ctx_c6.opLayout 5) = .aggregate 0 ∧
    ctx_c6.layoutAbi 20 = .aggregate 0 ∧
    abi_pair_ok (ctx_c6.layoutAbi (ctx_c6.opLayout 5)) (ctx_c6.layoutAbi 20) = false := by
  decide

/-- **C6 amended.** When `eval_to_const` succeeds on a `Transmute` cast,
the result is the operand's evaluated form bitcast at zero offset to the
target layout, and — only when that evaluated form is an immediate — the
source and target ABIs match as scalar/scalar or scalar-pair/scalar-pair;
for memory-backed operands no ABI restriction applies. -/
theorem c6_transmute_amended (ctx : Ctx) (st : VnState) (i : VnIndex) (v : VnIndex)
    (f t : TyH) (r : OpTyH)
    (hv : get_value st i = .cast .transmute v f t)
    (hr : eval_to_const ctx st i = some r) :
    ∃ op tl, st.evaluated.getD v none = some op ∧ ctx.layoutOf t = some tl ∧
      ctx.offsetZero op tl = some r ∧
      (ctx.asMplaceOrImmIsRight op = true →
        abi_pair_ok (ctx.layoutAbi (ctx.opLayout op)) (ctx.layoutAbi tl) = true) := by
  unfold eval_to_const at hr
  rw [hv] at hr
  dsimp only at hr
  cases hop : st.evaluated.getD v none with
  | none => rw [hop] at hr; cases hr
  | some op =>
    rw [hop] at hr
    cases htl : ctx.layoutOf t with
    | none => rw [htl] at hr; cases hr
    | some tl =>
      rw [htl] at hr
      dsimp only at hr
      refine ⟨op, tl, rfl, rfl, ?_⟩
      by_cases him : ctx.asMplaceOrImmIsRight op
      · rw [if_pos him] at hr
        cases ha1 : ctx.layoutAbi (ctx.opLayout op) <;> cases ha2 : ctx.layoutAbi tl <;>
          rw [ha1, ha2] at hr <;> try dsimp only at hr
        all_goals
          first
            | cases hr
            | exact ⟨hr, fun _ => rfl⟩
      · rw [if_neg him] at hr
        exact ⟨hr, fun himm => absurd himm him⟩

/-- Witness for the amended C6: an immediate with matching scalar ABIs
transmutes via the zero-offset bitcast. -/
theorem c6_transmute_amended_witness :
    ∃ op tl, st_c6.evaluated.getD 0 none = some op ∧ ctx_c6w.layoutOf 200 = some tl ∧
      ctx_c6w.offsetZero op tl = some 77 ∧
      (ctx_c6w.asMplaceOrImmIsRight op = true →
        abi_pair_ok (ctx_c6w.layoutAbi (ctx_c6w.opLayout op)) (ctx_c6w.layoutAbi tl) = true) :=
  c6_transmute_amended ctx_c6w st_c6 1 0 100 200 77 (by decide) (by decide)

/-- C7 counterexample: with the `unsized_locals` feature disabled, `assign`
registers a local in `rev_locals` even though the oracle says its declared
type is not sized — the guard in the source is `!feature || sized`, not
`sized` alone. -/
theorem c7_counterexample :
    ctx_c7.featureUnsizedLocals = false ∧
    ctx_c7.isSized (st_c7.localDecls.getD 0 0) = false ∧
    (assign ctx_c7 st_c7 0 0).revLocals = [(0, [0])] := by decide

/-- C7 (amended): `assign(local, value)` always records
`locals[local] = value`; it appends `local` to `rev_locals[value]` exactly
when `!unsized_locals_feature || is_sized(local)` holds, so sizedness gates
registration only while the `unsized_locals` feature gate is enabled, and a
non-sized local skips registration only in that case. -/
theorem c7_sized_guard_amended (ctx : Ctx) (st : VnState) (l : Local) (value : VnIndex) :
    (assign ctx st l value).locals = st.locals.set l (some value) ∧
    ((!ctx.featureUnsizedLocals || ctx.isSized (st.localDecls.getD l 0)) = true →
      (assign ctx st l value).revLocals = rev_push st.revLocals value l) ∧
    (ctx.featureUnsizedLocals = true → ctx.isSized (st.localDecls.getD l 0) = false →
      (assign ctx st l value).revLocals = st.revLocals) := by
  unfold assign
  dsimp only
  refine ⟨?_, ?_, ?_⟩
  · split <;> rfl
  · intro h
    rw [if_pos h]
  · intro hf hs
    rw [if_neg]
    simp [hf]
    simpa [List.getD] using hs

/-- C8 counterexample: even with the counter set to `None` after phase 1,
the phase-2 traversal of `_0 = Add(const 5, const 6)` interns the two
deterministic constant operands, so the set of interned values grows
during the rewrite traversal. -/
theorem c8_counterexample :
    (phase1 ctx0 [] body_c8).2.values.length = 0 ∧
    (phase2 ctx0 [0] ((phase1 ctx0 [] body_c8).1,
      { (phase1 ctx0 [] body_c8).2 with counter := none })).2.values.length > 0 := by
  decide

/-- C8 (amended): once the counter is `None`, phase 2 keeps it `None`, and
no counter-carrying value is minted — the interned set may still grow, but
only by appending values that are neither anonymous, nor addresses with a
fresh provenance, nor non-deterministic constants with a fresh
disambiguator. -/
theorem c8_no_minting_amended (ctx : Ctx) (rpo : List Nat) (body : Body) (st : VnState)
    (hc : st.counter = none) :
    (phase2 ctx rpo (body, st)).2.counter = none ∧
    (phase2 ctx rpo (body, st)).2.values.take st.values.length = st.values ∧
    ∀ v ∈ (phase2 ctx rpo (body, st)).2.values.drop st.values.length, MintFree ctx v := by
  have h := pass_phase2 ctx rpo (body, st)
  rcases h.no_mint hc with ⟨h1, h2⟩
  exact ⟨h1, h.vals, h2⟩

/-- Witness for the amended C8 on the constant-addition body. -/
theorem c8_no_minting_amended_witness :
    (phase2 ctx0 [0] (body_c8, { init_state body_c8 with counter := none })).2.counter = none ∧
    (phase2 ctx0 [0] (body_c8, { init_state body_c8 with counter := none })).2.values.take
        ({ init_state body_c8 with counter := none } : VnState).values.length =
      ({ init_state body_c8 with counter := none } : VnState).values ∧
    ∀ v ∈ (phase2 ctx0 [0] (body_c8, { init_state body_c8 with counter := none })).2.values.drop
        ({ init_state body_c8 with counter := none } : VnState).values.length, MintFree ctx0 v :=
  c8_no_minting_amended ctx0 [0] body_c8 { init_state body_c8 with counter := none } rfl

theorem remover_operand_nil (op : Operand) : remover_operand [] op = op := by
  unfold remover_operand
  repeat' split
  all_goals first | rfl | exact absurd (by assumption) (List.not_mem_nil _)

theorem map_remover_operand_nil (fs : List Operand) : fs.map (remover_operand []) = fs := by
  induction fs with
  | nil => rfl
  | cons a as ih => simp [remover_operand_nil, ih]

theorem map_rvalue_operands_nil (rv : Rvalue) :
    map_rvalue_operands (remover_operand []) rv = rv := by
  cases rv <;> simp [map_rvalue_operands, remover_operand_nil, map_remover_operand_nil]

theorem remover_statement_nil (s : Statement) : remover_statement [] s = s := by
  cases s <;> simp [remover_statement, map_rvalue_operands_nil]

theorem map_remover_statement_nil (stmts : List Statement) :
    stmts.map (remover_statement []) = stmts := by
  induction stmts with
  | nil => rfl
  | cons a as ih => simp [remover_statement_nil, ih]

theorem remove_storage_nil (body : Body) : remove_storage [] body = body := by
  unfold remove_storage
  have h : body.blocks.map (fun stmts => stmts.map (remover_statement [])) = body.blocks := by
    induction body.blocks with
    | nil => rfl
    | cons b bs ih => simp [map_remover_statement_nil, ih]
  rw [h]

/-- C9 counterexample: a body with no SSA locals (the SSA oracle reports no
assignments, so `rev_locals` stays empty) is still rewritten — its
`CopyForDeref` rvalue is unconditionally replaced by `Use(Copy(..))`
during phase 2 — so the pass is not a no-op on it. -/
theorem c9_counterexample : propagate_ssa ctx0 [] [0] body_c9 ≠ body_c9 := by decide

/-- C9 (amended): on a body with no SSA locals no local is ever reused, so
the `StorageRemover` fixup is the identity and the pass output is exactly
the phase-2 rewrite of the body; statement rewrites such as
`CopyForDeref -> Use(Copy)` and constant folding may still change it. -/
theorem c9_no_ssa_amended (ctx : Ctx) (rpo : List Nat) (body : Body) :
    (phase2 ctx rpo (body, { init_state body with counter := none })).2.reusedLocals = [] ∧
    propagate_ssa ctx [] rpo body =
      (phase2 ctx rpo (body, { init_state body with counter := none })).1 := by
  have h := pass_phase2 ctx rpo (body, { init_state body with counter := none })
  have hru : (phase2 ctx rpo (body, { init_state body with counter := none })).2.reusedLocals
      = [] := by
    cases hres : (phase2 ctx rpo (body,
        { init_state body with counter := none })).2.reusedLocals with
    | nil => rfl
    | cons l rest =>
      exfalso
      have hl : l ∈ (phase2 ctx rpo (body,
          { init_state body with counter := none })).2.reusedLocals := by
        rw [hres]
        exact List.mem_cons_self l rest
      rcases h.reused l hl with hm | ⟨index, loc, hidx⟩
      · exact absurd hm (List.not_mem_nil l)
      · have hnone : try_as_local_rev ctx
            ({ init_state body with counter := none } : VnState).revLocals index loc = none := rfl
        rw [hnone] at hidx
        exact Option.noConfusion hidx
  refine ⟨hru, ?_⟩
  rcases hp : phase2 ctx rpo (body, { init_state body with counter := none }) with ⟨body2, st2⟩
  rw [hp] at hru
  dsimp only at hru
  unfold propagate_ssa
  dsimp only [phase1, List.foldl]
  rw [hp]
  dsimp only
  rw [hru]
  exact remove_storage_nil body2

theorem usize_wrapping_sub_of_le (a b : Nat) (hb : b < 2 ^ 64) (h : b ≤ a) (ha : a < 2 ^ 64) :
    usize_wrapping_sub a b = a - b := by
  unfold usize_wrapping_sub
  rw [Nat.mod_eq_of_lt hb]
  have h1 : a + (2 ^ 64 - b) = 2 ^ 64 + (a - b) := by omega
  rw [h1, Nat.add_mod_left, Nat.mod_eq_of_lt (by omega)]

theorem usize_wrapping_sub_of_lt (a b : Nat) (hb : b < 2 ^ 64) (h : a < b) :
    usize_wrapping_sub a b = a + (2 ^ 64 - b) := by
  unfold usize_wrapping_sub
  rw [Nat.mod_eq_of_lt hb, Nat.mod_eq_of_lt (by omega)]

/-- C10: in `project`'s `ConstantIndex` arm over an `Aggregate(Array, ..)`
value, the from-end index `operands.len() - offset` is an unguarded usize
subtraction: it is underflow-free exactly when `offset <= operands.len()`;
in that range the lookup is `operands.get(len - offset)` and succeeds
whenever `1 <= offset`; past the range the wrapped index exceeds the
length so the guarded `get` still returns `None`; and with
`from_end: false` an out-of-range offset safely yields `None` through the
guarded `get`. -/
theorem c10_constant_index (ctx : Ctx) (st : VnState) (place : Place) (v : VnIndex)
    (variant : Nat) (operands : List VnIndex) (offset minLength : Nat)
    (hv : get_value st v = .aggregate .array variant operands)
    (hlen : operands.length < 2 ^ 64) (hoff : offset < 2 ^ 64) :
    (constant_index_from_end_underflows operands offset = false ↔
      offset ≤ operands.length) ∧
    (offset ≤ operands.length →
      project ctx st place v (.constantIndex offset minLength true) =
        (st, operands.get? (operands.length - offset)) ∧
      (1 ≤ offset → (operands.get? (operands.length - offset)).isSome = true)) ∧
    (operands.length < offset →
      project ctx st place v (.constantIndex offset minLength true) = (st, none)) ∧
    project ctx st place v (.constantIndex offset minLength false) =
      (st, operands.get? offset) := by
  refine ⟨?_, ?_, ?_, ?_⟩
  · simp [constant_index_from_end_underflows, Nat.not_lt]
  · intro hle
    constructor
    · unfold project
      rw [hv]
      dsimp only
      rw [if_pos rfl, usize_wrapping_sub_of_le operands.length offset hoff hle hlen]
    · intro h1
      have hlt : operands.length - offset < operands.length := by omega
      simp [List.get?_eq_getElem?, List.getElem?_eq_getElem hlt]
  · intro hgt
    unfold project
    rw [hv]
    dsimp only
    rw [if_pos rfl, usize_wrapping_sub_of_lt operands.length offset hoff hgt]
    have hnone : operands.get? (operands.length + (2 ^ 64 - offset)) = none := by
      rw [List.get?_eq_getElem?, List.getElem?_eq_none]
      omega
    rw [hnone]
  · unfold project
    rw [hv]
    rfl

/-- Witness for C10 on the concrete array aggregate `[10, 20, 30]` with
from-end offset 2. -/
theorem c10_constant_index_witness :
    (constant_index_from_end_underflows [10, 20, 30] 2 = false ↔
      2 ≤ ([10, 20, 30] : List VnIndex).length) ∧
    (2 ≤ ([10, 20, 30] : List VnIndex).length →
      project ctx0 st_c10 ⟨0, []⟩ 0 (.constantIndex 2 3 true) =
        (st_c10, ([10, 20, 30] : List VnIndex).get?
          (([10, 20, 30] : List VnIndex).length - 2)) ∧
      (1 ≤ 2 → (([10, 20, 30] : List VnIndex).get?
          (([10, 20, 30] : List VnIndex).length - 2)).isSome = true)) ∧
    (([10, 20, 30] : List VnIndex).length < 2 →
      project ctx0 st_c10 ⟨0, []⟩ 0 (.constantIndex 2 3 true) = (st_c10, none)) ∧
    project ctx0 st_c10 ⟨0, []⟩ 0 (.constantIndex 2 3 false) =
      (st_c10, ([10, 20, 30] : List VnIndex).get? 2) :=
  c10_constant_index ctx0 st_c10 ⟨0, []⟩ 0 0 [10, 20, 30] 2 3 (by decide) (by decide) (by decide)
